import Mathlib

/-!
# Device inventory extraction: decoders of `main.cpp`

A shallow embedding of the functions of `src/main.cpp` that build the inventory
(`cf2str`, `cf_get_u32`, `cf_get_u64`, `pciIdString`, `load_u32`,
`parseAssignedOrReg`, `parseIODeviceMemory`, `irqInfo`, `prettyName` and `collect`),
followed by theorems about them.  The table printing is not embedded.

Conventions of the embedding:

* a byte is a `Fin 256`; a byte buffer (`CFData`) is a `List Byte`;
* `uint32_t` / `uint64_t` values are natural numbers, and every operation that
  can leave the width is reduced `% 2^32` / `% 2^64` explicitly;
* the platform is little-endian (all macOS targets), so `memcpy` of `k` bytes
  into an integer reads the bytes least-significant first;
* a `std::string` is a `String`; `empty()` is equality with `""`;
* a null pointer is `none`;
* a CoreFoundation value cast to a pointer type without a check of its type identifier
  and then used at that type has no defined result when it is of another type; the
  functions that do so (`irqInfo`, `collect`) return an `Option`, `none` standing for
  that case.
-/

namespace MacInventory

/-! ## Data model -/

/-- One byte of a `CFData` buffer. -/
abbrev Byte := Fin 256

/-- An address range, the `pair<uint64_t,uint64_t>` written `{base,end}` in `Row`. -/
abbrev Range := Nat × Nat

/-- A `CFNumber`, seen through the only two calls the program makes on it:
`CFNumberGetValue(n, kCFNumberSInt32Type, &out)` and
`CFNumberGetValue(n, kCFNumberSInt64Type, &out)`.  CoreFoundation is an external
library, so a number is represented by what these two calls report: `none` when
the call returns `false`, and `some w` when it returns `true` after writing `w`
into `out`. -/
structure CFNumber where
  sint32 : Option Nat
  sint64 : Option Nat

/-- The CoreFoundation values the program distinguishes by `CFGetTypeID`:
numbers, byte buffers, strings, arrays and dictionaries; `other` stands for every
remaining CoreFoundation type (booleans, dates, ...).  A dictionary is an
association list from string keys to values. -/
inductive CFType where
  | number (n : CFNumber)
  | data (bytes : List Byte)
  | string (s : String)
  | array (items : List CFType)
  | dictionary (entries : List (String × CFType))
  | other

/-- A `CFDictionaryRef` that is not null: the entries of the dictionary. -/
abbrev CFDictionary := List (String × CFType)

/-- The call `CFDictionaryGetValue(d, CFSTR(key))`: the value stored under `key`, or
null (`none`) when the key is absent. -/
def CFDictionaryGetValue (d : CFDictionary) (key : String) : Option CFType :=
  match d with
  | [] => none
  | (k, v) :: rest => if k = key then some v else CFDictionaryGetValue rest key

/-! ## Fixed-width arithmetic -/

/-- Addition of two `uint64_t`. -/
def add64 (a b : Nat) : Nat := (a + b) % 2 ^ 64

/-- Subtraction of two `uint64_t`. -/
def sub64 (a b : Nat) : Nat := (a % 2 ^ 64 + (2 ^ 64 - b % 2 ^ 64)) % 2 ^ 64

/-- The value `memcpy` leaves in an unsigned integer of `k` bytes when it copies the
`k` bytes of `p` that start at offset `off` (little-endian). -/
def memcpyLE (p : List Byte) (off : Nat) : Nat → Nat
  | 0 => 0
  | k + 1 => (p.getD off 0).val + 256 * memcpyLE p (off + 1) k

/-! ## CF utilities -/

/-- The function `cf2str`: the UTF-8 text of a `CFString`, or `""` for null.  The
buffer handed to `CFStringGetCString` always has room, and the result is cut at
the first NUL by `out.resize(strlen(out.c_str()))`. -/
def cf2str (s : Option String) : String :=
  match s with
  | none => ""
  | some t => String.mk (t.data.takeWhile (fun c => c != Char.ofNat 0))

/-- The function `cf_get_u32`: `none` is the `false` return, `some w` is `true` with
`out = w`. -/
def cf_get_u32 (v : Option CFType) : Option Nat :=
  match v with
  | none => none
  | some (CFType.number n) => n.sint32.map (fun w => w % 2 ^ 32)
  | some (CFType.data d) => if d.length < 4 then none else some (memcpyLE d 0 4)
  | some _ => none

/-- The function `cf_get_u64`: `none` is the `false` return, `some w` is `true` with
`out = w`. -/
def cf_get_u64 (v : Option CFType) : Option Nat :=
  match v with
  | none => none
  | some (CFType.number n) => n.sint64.map (fun w => w % 2 ^ 64)
  | some (CFType.data d) => if d.length < 8 then none else some (memcpyLE d 0 8)
  | some _ => none

/-- The digit that `std::hex << std::uppercase` prints for a value below 16. -/
def hexDigitUpper (d : Nat) : Char :=
  if d < 10 then Char.ofNat (48 + d) else Char.ofNat (55 + d)

/-- The text that `ss << std::hex << std::uppercase << n` produces for an unsigned
`n` when no width is set: the hexadecimal digits of `n`, most significant first. -/
def hexUpper (n : Nat) : List Char :=
  if n < 16 then [hexDigitUpper n]
  else hexUpper (n / 16) ++ [hexDigitUpper (n % 16)]
termination_by n
decreasing_by omega

/-- The effect of `setw(w) << setfill(c)` on the next item: it is padded on the left
with `c` up to width `w`. -/
def setwFill (w : Nat) (c : Char) (text : List Char) : List Char :=
  List.replicate (w - text.length) c ++ text

/-- The function `pciIdString`. -/
def pciIdString (props : Option CFDictionary) : String :=
  match props with
  | none => ""
  | some p =>
    let ven := CFDictionaryGetValue p "vendor-id"
    let dev := CFDictionaryGetValue p "device-id"
    match cf_get_u32 ven, cf_get_u32 dev with
    | some v, some d =>
      String.mk (setwFill 4 (Char.ofNat 48) (hexUpper (v &&& 0xFFFF))) ++ ":" ++
        String.mk (setwFill 4 (Char.ofNat 48) (hexUpper (d &&& 0xFFFF)))
    | _, _ => ""

/-! ## MMIO parsing -/

/-- The function `load_u32`, applied to the pointer `p + off`. -/
def load_u32 (p : List Byte) (off : Nat) : Nat := memcpyLE p off 4

/-- The range pushed by one record: `base = ((uint64_t)md << 32) | lo`,
`end = base + (uint64_t)sz - 1ULL`. -/
def mkRange (md lo sz : Nat) : Range :=
  let base := ((md <<< 32) % 2 ^ 64) ||| lo
  let e := sub64 (add64 base sz) 1
  (base, e)

/-- The first loop of `parseAssignedOrReg`, `for(i; i+16<=n; i+=16)`, from index `i`
with `r` accumulated so far. -/
def loop16 (p : List Byte) (n i : Nat) (r : List Range) : List Range :=
  if i + 16 ≤ n then
    let md := load_u32 p (i + 4)
    let lo := load_u32 p (i + 8)
    let sz := load_u32 p (i + 12)
    if sz = 0 then loop16 p n (i + 16) r
    else loop16 p n (i + 16) (r ++ [mkRange md lo sz])
  else r
termination_by n - i
decreasing_by all_goals omega

/-- The second loop of `parseAssignedOrReg`, `for(i; i+12<=n; i+=12)`, from index `i`
with `r` accumulated so far. -/
def loop12 (p : List Byte) (n i : Nat) (r : List Range) : List Range :=
  if i + 12 ≤ n then
    let md := load_u32 p (i + 0)
    let lo := load_u32 p (i + 4)
    let sz := load_u32 p (i + 8)
    if sz = 0 then loop12 p n (i + 12) r
    else loop12 p n (i + 12) (r ++ [mkRange md lo sz])
  else r
termination_by n - i
decreasing_by all_goals omega

/-- The function `parseAssignedOrReg`. -/
def parseAssignedOrReg (data : Option (List Byte)) : List Range :=
  match data with
  | none => []
  | some p =>
    let n := p.length
    if n % 16 = 0 then loop16 p n 0 []
    else if n % 12 = 0 then loop12 p n 0 []
    else []

/-- The second half of the loop body of `parseIODeviceMemory`: the keys `"Address"`
and `"Length"` as `CFData` of at least 8 bytes each. -/
def parseIODeviceMemoryData (r : List Range) (d : CFDictionary) : List Range :=
  match CFDictionaryGetValue d "Address", CFDictionaryGetValue d "Length" with
  | some (CFType.data A), some (CFType.data L) =>
    if 8 ≤ A.length ∧ 8 ≤ L.length then
      let a64 := memcpyLE A 0 8
      let l64 := memcpyLE L 0 8
      if l64 ≠ 0 then r ++ [(a64, sub64 (add64 a64 l64) 1)] else r
    else r
  | _, _ => r

/-- The loop body of `parseIODeviceMemory` for the array element `item`: the vector
`r` after the iteration. -/
def parseIODeviceMemoryStep (r : List Range) (item : CFType) : List Range :=
  match item with
  | CFType.dictionary d =>
    let a := CFDictionaryGetValue d "address"
    let l := CFDictionaryGetValue d "length"
    match cf_get_u64 a, cf_get_u64 l with
    | some addr, some len =>
      if len ≠ 0 then r ++ [(addr, sub64 (add64 addr len) 1)]
      else parseIODeviceMemoryData r d
    | _, _ => parseIODeviceMemoryData r d
  | _ => r

/-- The function `parseIODeviceMemory`. -/
def parseIODeviceMemory (prop : Option CFType) : List Range :=
  match prop with
  | some (CFType.array arr) => arr.foldl parseIODeviceMemoryStep []
  | _ => []

/-! ## Names -/

/-- The vector `keys` of `prettyName`. -/
def prettyNameKeys : List String :=
  ["IOName", "USB Product Name", "USB Product Name Override", "product-name", "model",
    "name"]

/-- The loop of `prettyName` over the keys still to try, with the final
`return ioClass`. -/
def prettyNameLoop (props : CFDictionary) (ioClass : String) : List String → String
  | [] => ioClass
  | k :: ks =>
    match CFDictionaryGetValue props k with
    | some (CFType.string v) =>
      let s := cf2str (some v)
      if s ≠ "" then
        if ioClass = "IOPCIDevice" then
          let pid := pciIdString (some props)
          if pid ≠ "" then s ++ (" [" ++ pid ++ "]") else s
        else s
      else prettyNameLoop props ioClass ks
    | _ => prettyNameLoop props ioClass ks

/-- The function `prettyName`; its registry-entry argument is unused. -/
def prettyName (props : CFDictionary) (ioClass : String) : String :=
  prettyNameLoop props ioClass prettyNameKeys

/-- The field `row.device` that `collect` stores: `prettyName(o, props, ioClass)`,
replaced by `ioClass` when empty. -/
def collectDevice (props : CFDictionary) (ioClass : String) : String :=
  let device := prettyName props ioClass
  if device = "" then ioClass else device

/-! ## Interrupts -/

/-- The unchecked cast `(CFStringRef)v` whose result is handed to `cf2str`: a null
pointer and a string are passed through; for a value of any other type the program
calls string accessors on an object that is not a string, which has no defined
result (`none`). -/
def castCFString (v : Option CFType) : Option (Option String) :=
  match v with
  | none => some none
  | some (CFType.string s) => some (some s)
  | some _ => none

/-- The string `c` of `irqInfo`: `cf2str` of the `"IOInterruptController"` property,
cast to `CFStringRef` without a type check. -/
def irqController (props : CFDictionary) : Option String :=
  (castCFString (CFDictionaryGetValue props "IOInterruptController")).map cf2str

/-- The text `ss << (long)bytes` produces for a non-negative count. -/
def streamDec (n : Nat) : String := Nat.repr n

/-- The function `irqInfo`; `none` only when the unchecked cast of
`"IOInterruptController"` meets a value that is not a string. -/
def irqInfo (props : Option CFDictionary) : Option String :=
  match props with
  | none => some ""
  | some p =>
    match CFDictionaryGetValue p "IOInterruptSpecifiers" with
    | none => some ""
    | some specAny =>
      let bytes : Nat :=
        match specAny with
        | CFType.data d => d.length
        | CFType.array a => a.length
        | _ => 0
      match irqController p with
      | none => none
      | some c =>
        let ss := "Spec:" ++ streamDec bytes ++
          (match specAny with
           | CFType.data _ => "B"
           | _ => " item(s)")
        some (if c ≠ "" then ss ++ ", " ++ c else ss)

/-! ## Registry walk -/

/-- The struct `Row`. -/
structure Row where
  device : String
  ports : String
  ranges : List Range
  irq : String
  note : String
  deriving DecidableEq

/-- The unchecked cast `(CFDataRef)v` whose result is handed to `parseAssignedOrReg`:
a null pointer and a byte buffer are passed through; for a value of any other type
the program calls `CFDataGetBytePtr` on an object that is not a buffer, which has no
defined result (`none`). -/
def castCFData (v : Option CFType) : Option (Option (List Byte)) :=
  match v with
  | none => some none
  | some (CFType.data d) => some (some d)
  | some _ => none

/-- The field `row.ranges` that `collect` stores: `assigned-addresses`, then `reg`,
then `IODeviceMemory`. -/
def collectRanges (props : CFDictionary) : Option (List Range) :=
  match castCFData (CFDictionaryGetValue props "assigned-addresses"),
    castCFData (CFDictionaryGetValue props "reg") with
  | some aa, some rg =>
    let v1 := parseAssignedOrReg aa
    let v2 := parseAssignedOrReg rg
    if v1 ≠ [] then some v1
    else if v2 ≠ [] then some v2
    else
      let iom := CFDictionaryGetValue props "IODeviceMemory"
      let v3 := parseIODeviceMemory iom
      if v3 ≠ [] then some v3 else some []
  | _, _ => none

/-- The field `row.irq` that `collect` stores: `irqInfo(props)`, replaced by `"N/A"`
when empty. -/
def collectIrq (props : CFDictionary) : Option String :=
  (irqInfo (some props)).map (fun irq => if irq = "" then "N/A" else irq)

/-- The field `row.note` that `collect` stores for the tag `noteTag`. -/
def collectNote (noteTag : String) : String :=
  if noteTag = "PCIe" then "Bus Mastering (MSI)"
  else if noteTag = "USB-Controller" then "Bus Mastering (через DART)"
  else if noteTag = "USB" then "USB пристрій"
  else if noteTag = "Audio" then "Аудіо контролер"
  else if noteTag = "I2C" then "Системний IO"
  else if noteTag = "SoC-IO" then "Системний IO"
  else noteTag

/-- The row `collect` builds for one entry whose properties are `props` and whose
class name is `ioClass`; `none` when one of the unchecked casts meets a value of
another type. -/
def collectRow (props : CFDictionary) (ioClass noteTag : String) : Option Row :=
  match collectRanges props, collectIrq props with
  | some ranges, some irq =>
    some { device := collectDevice props ioClass, ports := "N/A", ranges := ranges,
           irq := irq, note := collectNote noteTag }
  | _, _ => none

/-- One entry delivered by the iterator: `props` is what
`IORegistryEntryCreateCFProperties` yields (`none` when it does not return
`KERN_SUCCESS`), `cls` is what `IOObjectCopyClass` returns (possibly null). -/
structure RegistryEntry where
  props : Option CFDictionary
  cls : Option String

/-- The `while` loop of `collect` over the entries still to come, `out` being the
vector accumulated so far. -/
def collectLoop (noteTag : String) : List RegistryEntry → List Row → Option (List Row)
  | [], out => some out
  | o :: rest, out =>
    match o.props with
    | none => collectLoop noteTag rest out
    | some props =>
      match collectRow props (cf2str o.cls) noteTag with
      | none => none
      | some row => collectLoop noteTag rest (out ++ [row])

/-- The function `collect`.  The registry is a parameter: `registry klass` is `none`
when `IOServiceMatching` returns null or `IOServiceGetMatchingServices` does not
return `KERN_SUCCESS`, and otherwise the entries the iterator delivers, in order. -/
def collect (registry : String → Option (List RegistryEntry)) (klass : String)
    (out : List Row) (noteTag : String) : Option (List Row) :=
  match registry klass with
  | none => some out
  | some entries => collectLoop noteTag entries out

/-! ## Reference definitions, written from the specification -/

/-- The unsigned integer whose bytes, least significant first, are `bs`. -/
def leValue : List Byte → Nat
  | [] => 0
  | b :: bs => b.val + 256 * leValue bs

/-- The unsigned 32-bit field held in bytes `a .. a+3` of a record. -/
def fieldU32 (record : List Byte) (a : Nat) : Nat := leValue ((record.drop a).take 4)

/-- The consecutive fixed-size records of a buffer, in buffer order. -/
def records (stride : Nat) (buf : List Byte) : List (List Byte) :=
  (List.range (buf.length / stride)).map (fun k => (buf.drop (stride * k)).take stride)

/-- The range of a record with address words `hi`, `lo` and size `size`:
address `(hi << 32) | lo`, end `address + size - 1` as an unsigned 64-bit integer. -/
def specRange (hi lo size : Nat) : Range :=
  ((hi <<< 32) ||| lo, (((hi <<< 32) ||| lo) + size - 1) % 2 ^ 64)

/-- A 16-byte record `[4 unused][4 address-high][4 address-low][4 size]`: skipped when
the size is zero. -/
def specRecord16 (record : List Byte) : Option Range :=
  if fieldU32 record 12 = 0 then none
  else some (specRange (fieldU32 record 4) (fieldU32 record 8) (fieldU32 record 12))

/-- A 12-byte record `[4 address-high][4 address-low][4 size]`: skipped when the size
is zero. -/
def specRecord12 (record : List Byte) : Option Range :=
  if fieldU32 record 8 = 0 then none
  else some (specRange (fieldU32 record 0) (fieldU32 record 4) (fieldU32 record 8))

/-- The range `[address, address + length - 1]` of a memory descriptor, the end taken
as an unsigned 64-bit integer. -/
def specMemRange (address length : Nat) : Range :=
  (address, (address + length - 1) % 2 ^ 64)

/-- Form 1 of a memory descriptor: the keys `"address"` and `"length"` as typed
scalars, both resolved by the 64-bit Scalar Decoder. -/
def lowerForm (d : CFDictionary) : Option (Nat × Nat) :=
  match cf_get_u64 (CFDictionaryGetValue d "address"),
    cf_get_u64 (CFDictionaryGetValue d "length") with
  | some a, some l => some (a, l)
  | _, _ => none

/-- Form 2 of a memory descriptor: the keys `"Address"` and `"Length"` as raw byte
buffers of at least 8 bytes each, the first 8 bytes of each decoded as a 64-bit
integer. -/
def upperForm (d : CFDictionary) : Option (Nat × Nat) :=
  match CFDictionaryGetValue d "Address", CFDictionaryGetValue d "Length" with
  | some (CFType.data A), some (CFType.data L) =>
    if 8 ≤ A.length ∧ 8 ≤ L.length then some (leValue (A.take 8), leValue (L.take 8))
    else none
  | _, _ => none

/-- The range a form contributes: none when the form is absent or its length is 0. -/
def formRange (form : Option (Nat × Nat)) : Option Range :=
  match form with
  | some (a, l) => if l = 0 then none else some (specMemRange a l)
  | none => none

/-- The range one list item contributes: for a mapping, the range of form 1 if it
emits one, else the range of form 2 if it emits one; nothing for other items. -/
def specItem (item : CFType) : Option Range :=
  match item with
  | CFType.dictionary d =>
    match formRange (lowerForm d) with
    | some r => some r
    | none => formRange (upperForm d)
  | _ => none

/-- The uppercase hexadecimal digit of a value below 16. -/
def specHexDigit (d : Nat) : Char := "0123456789ABCDEF".data.getD d (Char.ofNat 48)

/-- Exactly four uppercase hexadecimal digits of `x`, zero-padded on the left. -/
def hex4 (x : Nat) : String :=
  String.mk [specHexDigit (x / 4096 % 16), specHexDigit (x / 256 % 16),
    specHexDigit (x / 16 % 16), specHexDigit (x % 16)]

/-- The name a candidate key offers: the text of its value when that value is a
string whose text is not empty. -/
def usableName (props : CFDictionary) (key : String) : Option String :=
  match CFDictionaryGetValue props key with
  | some (CFType.string v) => if cf2str (some v) = "" then none else some (cf2str (some v))
  | _ => none

/-- The first usable candidate name, in the fixed order of the candidate keys. -/
def firstUsable (props : CFDictionary) : Option String :=
  prettyNameKeys.findSome? (usableName props)

/-- Whether a key holds a non-empty string. -/
def holdsNonEmptyString (props : CFDictionary) (key : String) : Bool :=
  match CFDictionaryGetValue props key with
  | some (CFType.string v) => v != ""
  | _ => false

/-- The display name built on the candidate name `s`: the bracketed identifier pair is
appended when the class is `"IOPCIDevice"` and both `"vendor-id"` and `"device-id"`
resolve by the 32-bit Scalar Decoder; otherwise `s` is left unchanged. -/
def withIdSuffix (props : CFDictionary) (ioClass s : String) : String :=
  if ioClass = "IOPCIDevice" then
    match cf_get_u32 (CFDictionaryGetValue props "vendor-id"),
      cf_get_u32 (CFDictionaryGetValue props "device-id") with
    | some v, some d => s ++ " [" ++ hex4 (v &&& 0xFFFF) ++ ":" ++ hex4 (d &&& 0xFFFF) ++ "]"
    | _, _ => s
  else s

/-- The tags the label table of `collect` recognises. -/
def recognizedTags : List String :=
  ["PCIe", "USB-Controller", "USB", "Audio", "I2C", "SoC-IO"]

/-- The head of an interrupt summary: `"Spec:<N>B"` for a raw buffer of `N` bytes,
`"Spec:<N> item(s)"` for a list of `N` items. -/
def irqSpecText (v : CFType) : String :=
  match v with
  | CFType.data d => "Spec:" ++ streamDec d.length ++ "B"
  | CFType.array a => "Spec:" ++ streamDec a.length ++ " item(s)"
  | _ => "Spec:0 item(s)"

/-- Whether the property retrieval of an entry succeeded. -/
def retrieved (o : RegistryEntry) : Bool := o.props.isSome

/-- The record `row` is the one built for the entry `o`, whose property retrieval
succeeded. -/
def rowOf (noteTag : String) (o : RegistryEntry) (row : Row) : Prop :=
  ∃ props, o.props = some props ∧ collectRow props (cf2str o.cls) noteTag = some row

/-- Whether a property value is absent or a raw byte buffer. -/
def absentOrData (v : Option CFType) : Bool :=
  match v with
  | none => true
  | some (CFType.data _) => true
  | some _ => false

/-- Whether a property value is absent or a string. -/
def absentOrString (v : Option CFType) : Bool :=
  match v with
  | none => true
  | some (CFType.string _) => true
  | some _ => false

/-- The raw byte buffer a property value holds, if any. -/
def asBuffer (v : Option CFType) : Option (List Byte) :=
  match v with
  | some (CFType.data b) => some b
  | _ => none

/-- The ranges of a record: the Range Decoder on the assigned-resource property, else
on the generic `"reg"` property, else the Memory-Descriptor Decoder on the
device-memory property. -/
def specRanges (props : CFDictionary) : List Range :=
  if parseAssignedOrReg (asBuffer (CFDictionaryGetValue props "assigned-addresses")) ≠ []
  then parseAssignedOrReg (asBuffer (CFDictionaryGetValue props "assigned-addresses"))
  else if parseAssignedOrReg (asBuffer (CFDictionaryGetValue props "reg")) ≠ []
  then parseAssignedOrReg (asBuffer (CFDictionaryGetValue props "reg"))
  else parseIODeviceMemory (CFDictionaryGetValue props "IODeviceMemory")

/-- The human-readable interrupt-controller name: the text of `"IOInterruptController"`
when it is a string, empty otherwise. -/
def controllerText (props : CFDictionary) : String :=
  match CFDictionaryGetValue props "IOInterruptController" with
  | some (CFType.string s) => cf2str (some s)
  | _ => ""

/-- The interrupt summary of a record: `"N/A"` without an interrupt-specifier property,
else `"Spec:<N>B"` or `"Spec:<N> item(s)"`, followed by `", <controllerName>"` when
there is a controller name. -/
def specIrq (props : CFDictionary) : String :=
  match CFDictionaryGetValue props "IOInterruptSpecifiers" with
  | none => "N/A"
  | some v =>
    if controllerText props = "" then irqSpecText v
    else irqSpecText v ++ (", " ++ controllerText props)

/-- The DeviceRecord of one entry: name, placeholder port label, ranges, interrupt
summary and category note. -/
def specRow (props : CFDictionary) (ioClass noteTag : String) : Row :=
  { device := collectDevice props ioClass, ports := "N/A", ranges := specRanges props,
    irq := specIrq props, note := collectNote noteTag }

/-- The property values that `collect` and `irqInfo` use at a fixed type have that
type: `"assigned-addresses"` and `"reg"` are absent or byte buffers, and
`"IOInterruptController"` is absent or a string whenever `"IOInterruptSpecifiers"` is
present. -/
def wellTyped (props : CFDictionary) : Bool :=
  absentOrData (CFDictionaryGetValue props "assigned-addresses") &&
    absentOrData (CFDictionaryGetValue props "reg") &&
    ((CFDictionaryGetValue props "IOInterruptSpecifiers").isNone ||
      absentOrString (CFDictionaryGetValue props "IOInterruptController"))

/-! ## Concrete inputs -/

/-- Two 16-byte records, `{0, 0, 0x1000, 0x100}` then `{0, 0, 0x2000, 0}`. -/
def buf16Example : List Byte :=
  [0, 0, 0, 0,  0, 0, 0, 0,  0x00, 0x10, 0, 0,  0x00, 0x01, 0, 0,
   0, 0, 0, 0,  0, 0, 0, 0,  0x00, 0x20, 0, 0,  0, 0, 0, 0]

/-- Two 12-byte records, `{1, 0x2000, 0x10}` then `{0, 0x3000, 0}`. -/
def buf12Example : List Byte :=
  [1, 0, 0, 0,  0x00, 0x20, 0, 0,  0x10, 0, 0, 0,
   0, 0, 0, 0,  0x00, 0x30, 0, 0,  0, 0, 0, 0]

/-- A buffer of 7 bytes, which is neither a whole number of 16-byte records nor of
12-byte records. -/
def buf7Example : List Byte := [1, 2, 3, 4, 5, 6, 7]

/-- A descriptor with numeric `"address"` 0x1000 and `"length"` 0x100. -/
def descNumeric : CFDictionary :=
  [("address", CFType.number ⟨some 0x1000, some 0x1000⟩),
   ("length", CFType.number ⟨some 0x100, some 0x100⟩)]

/-- A descriptor whose `"address"` 0x2000 and `"length"` 0x10 are 8-byte buffers. -/
def descBuffers : CFDictionary :=
  [("address", CFType.data [0x00, 0x20, 0, 0, 0, 0, 0, 0]),
   ("length", CFType.data [0x10, 0, 0, 0, 0, 0, 0, 0])]

/-- A descriptor with numeric `"address"` 0x3000 and `"length"` 1. -/
def descUnit : CFDictionary :=
  [("address", CFType.number ⟨some 0x3000, some 0x3000⟩),
   ("length", CFType.number ⟨some 1, some 1⟩)]

/-- A descriptor with numeric `"address"` 0x1000 and `"length"` 0 and nothing else. -/
def descZero : CFDictionary :=
  [("address", CFType.number ⟨some 0x1000, some 0x1000⟩),
   ("length", CFType.number ⟨some 0, some 0⟩)]

/-- A descriptor that carries both key conventions: `"length"` is the number 0, while
`"Address"` and `"Length"` are 8-byte buffers holding 0x2000 and 0x100. -/
def descMixed : CFDictionary :=
  [("address", CFType.number ⟨some 0x1000, some 0x1000⟩),
   ("length", CFType.number ⟨some 0, some 0⟩),
   ("Address", CFType.data [0x00, 0x20, 0, 0, 0, 0, 0, 0]),
   ("Length", CFType.data [0x00, 0x01, 0, 0, 0, 0, 0, 0])]

/-- One 16-byte record `{0, 0xFFFFFFFF, 0xFFFFFFFF, 2}`: base `2^64 - 1`, size 2. -/
def bufWrapExample : List Byte :=
  [0, 0, 0, 0,  0xFF, 0xFF, 0xFF, 0xFF,  0xFF, 0xFF, 0xFF, 0xFF,  2, 0, 0, 0]

/-- Only `"model" = "Widget"`, with vendor and device ids 0x106B and 0x1234 held as
4-byte buffers. -/
def propsWidget : CFDictionary :=
  [("model", CFType.string "Widget"),
   ("vendor-id", CFType.data [0x6B, 0x10, 0, 0]),
   ("device-id", CFType.data [0x34, 0x12, 0, 0])]

/-- No candidate key holds a non-empty string (`"IOName"` is a number, `"model"` is
the empty string), while vendor and device ids are present. -/
def propsNameless : CFDictionary :=
  [("IOName", CFType.number ⟨some 7, some 7⟩),
   ("model", CFType.string ""),
   ("vendor-id", CFType.data [0x6B, 0x10, 0, 0]),
   ("device-id", CFType.data [0x34, 0x12, 0, 0])]

/-- A buffer of 48 bytes, the words `0, 0, 0x1000, 0x100`, `0, 0, 0x2000, 0x200`,
`0, 0, 0x3000, 0x300`: three 16-byte records, or four 12-byte records. -/
def buf48Example : List Byte :=
  [0, 0, 0, 0,  0, 0, 0, 0,  0x00, 0x10, 0, 0,  0x00, 0x01, 0, 0,
   0, 0, 0, 0,  0, 0, 0, 0,  0x00, 0x20, 0, 0,  0x00, 0x02, 0, 0,
   0, 0, 0, 0,  0, 0, 0, 0,  0x00, 0x30, 0, 0,  0x00, 0x03, 0, 0]

/-- The buffer `buf16Example` with other values in the first 4 bytes of each of its
two records. -/
def buf16Variant : List Byte :=
  [0xDE, 0xAD, 0xBE, 0xEF,  0, 0, 0, 0,  0x00, 0x10, 0, 0,  0x00, 0x01, 0, 0,
   0x01, 0x02, 0x03, 0x04,  0, 0, 0, 0,  0x00, 0x20, 0, 0,  0, 0, 0, 0]

/-- A descriptor that carries only the capitalised keys: `"Address"` and `"Length"` are
buffers of 8 and 12 bytes whose first 8 bytes hold 0x4000 and 0x20. -/
def descCapital : CFDictionary :=
  [("Address", CFType.data [0x00, 0x40, 0, 0, 0, 0, 0, 0]),
   ("Length", CFType.data [0x20, 0, 0, 0, 0, 0, 0, 0, 0xAA, 0xBB, 0xCC, 0xDD])]

/-- A property set without `"IOInterruptSpecifiers"`. -/
def propsNoIrq : CFDictionary :=
  [("IOName", CFType.string "pci-bridge"),
   ("IOInterruptController", CFType.string "AppleAIC")]

/-- A property set whose `"IOInterruptSpecifiers"` is a buffer of 4 bytes and whose
`"IOInterruptController"` is the string `"AppleAIC"`. -/
def propsIrqData : CFDictionary :=
  [("IOInterruptSpecifiers", CFType.data [0x21, 0, 0, 0]),
   ("IOInterruptController", CFType.string "AppleAIC")]

/-- A property set whose `"IOInterruptSpecifiers"` is a list of 2 items, with no
`"IOInterruptController"`. -/
def propsIrqList : CFDictionary :=
  [("IOInterruptSpecifiers", CFType.array [CFType.data [1, 0, 0, 0], CFType.data [2, 0, 0, 0]])]

/-- A property set whose `"IOInterruptSpecifiers"` is a buffer of 4 bytes and whose
`"IOInterruptController"` is a number. -/
def propsIrqCtrlNumber : CFDictionary :=
  [("IOInterruptSpecifiers", CFType.data [0x21, 0, 0, 0]),
   ("IOInterruptController", CFType.number ⟨some 5, some 5⟩)]

/-- The three-character string `a`, NUL, `b`. -/
def textWithNul : String := String.mk ['a', Char.ofNat 0, 'b']

/-- A property set whose `"IOInterruptSpecifiers"` is a buffer of 4 bytes and whose
`"IOInterruptController"` is the string `textWithNul`. -/
def propsIrqCtrlNul : CFDictionary :=
  [("IOInterruptSpecifiers", CFType.data [0x21, 0, 0, 0]),
   ("IOInterruptController", CFType.string textWithNul)]

/-- A property set with only an `"IODeviceMemory"` list of one descriptor and a
name. -/
def propsMemoryOnly : CFDictionary :=
  [("IOName", CFType.string "spu"),
   ("IODeviceMemory", CFType.array [CFType.dictionary descUnit])]

/-- A registry in which the class `"AppleSPU"` matches three entries: the first and
the third deliver their properties, the second does not; every other class query
fails. -/
def registryExample (klass : String) : Option (List RegistryEntry) :=
  if klass = "AppleSPU" then
    some [⟨some propsMemoryOnly, some "AppleSPU"⟩, ⟨none, some "AppleSPU"⟩,
      ⟨some propsNoIrq, some "AppleSPU"⟩]
  else none

/-- A record accumulated by an earlier class query. -/
def rowEarlier : Row :=
  { device := "Widget [106B:1234]", ports := "N/A", ranges := [(0x1000, 0x10FF)],
    irq := "N/A", note := "Bus Mastering (MSI)" }

/-- A property set whose `"IOName"` is the two-character string NUL, `x` and whose
`"model"` is `"Widget"`. -/
def propsNulName : CFDictionary :=
  [("IOName", CFType.string (String.mk [Char.ofNat 0, 'x'])),
   ("model", CFType.string "Widget")]

/-- A property set whose `"IOName"` is a number, whose `"USB Product Name"` is the
empty string, and whose `"product-name"`, `"model"` and `"name"` are non-empty
strings. -/
def propsManyNames : CFDictionary :=
  [("IOName", CFType.number ⟨some 1, some 1⟩),
   ("USB Product Name", CFType.string ""),
   ("name", CFType.string "last"),
   ("model", CFType.string "Widget"),
   ("product-name", CFType.string "Hub")]

/-- A property set whose `"IOInterruptSpecifiers"` and `"IOInterruptController"` are
both numbers. -/
def propsIrqBothNumbers : CFDictionary :=
  [("IOInterruptSpecifiers", CFType.number ⟨some 3, some 3⟩),
   ("IOInterruptController", CFType.number ⟨some 5, some 5⟩)]

/-- A property set whose `"IOInterruptSpecifiers"` is a number and whose
`"IOInterruptController"` is the string `"AppleAIC"`. -/
def propsIrqNumberCtrl : CFDictionary :=
  [("IOInterruptSpecifiers", CFType.number ⟨some 3, some 3⟩),
   ("IOInterruptController", CFType.string "AppleAIC")]

/-- A property set whose `"reg"` is a string. -/
def propsRegString : CFDictionary :=
  [("IOName", CFType.string "codec"),
   ("reg", CFType.string "x")]

/-- Two entries of class `"AppleSPU"`, both delivering their properties; the `"reg"`
of the second is a string. -/
def entriesRegString : List RegistryEntry :=
  [⟨some propsMemoryOnly, some "AppleSPU"⟩, ⟨some propsRegString, some "AppleSPU"⟩]

/-- A registry in which the class `"AppleSPU"` matches `entriesRegString`; every other
class query fails. -/
def registryRegString (klass : String) : Option (List RegistryEntry) :=
  if klass = "AppleSPU" then some entriesRegString else none

/-! ## Theorems -/

/-! ### Little-endian loads -/

theorem memcpyLE_eq_leValue (p : List Byte) (k : Nat) :
    ∀ off, off + k ≤ p.length → memcpyLE p off k = leValue ((p.drop off).take k) := by
  induction k with
  | zero => intro off _; simp [memcpyLE, leValue]
  | succ k ih =>
    intro off h
    have hlt : off < p.length := by omega
    rw [List.drop_eq_getElem_cons hlt, List.take_succ_cons]
    simp only [memcpyLE, leValue]
    rw [ih (off + 1) (by omega), List.getD_eq_getElem p 0 hlt]

theorem memcpyLE_lt (p : List Byte) (k : Nat) : ∀ off, memcpyLE p off k < 256 ^ k := by
  induction k with
  | zero => intro off; simp [memcpyLE]
  | succ k ih =>
    intro off
    have h1 := ih (off + 1)
    have h2 : (p.getD off 0).val < 256 := (p.getD off 0).isLt
    simp only [memcpyLE, pow_succ]
    omega

theorem load_u32_lt (p : List Byte) (off : Nat) : load_u32 p off < 2 ^ 32 := by
  have h := memcpyLE_lt p 4 off
  simpa [load_u32] using h

/-- A field of the `k`-th record of stride `s`, read by `load_u32` at the absolute
offset. -/
theorem load_u32_eq_fieldU32 (p : List Byte) (s k c : Nat) (hc : c + 4 ≤ s)
    (hk : s * k + s ≤ p.length) :
    load_u32 p (s * k + c) = fieldU32 ((p.drop (s * k)).take s) c := by
  unfold load_u32 fieldU32
  rw [memcpyLE_eq_leValue p 4 (s * k + c) (by omega)]
  rw [List.drop_take, List.take_take, List.drop_drop]
  congr 2
  omega

/-- The range computed by the code is the range of the specification. -/
theorem mkRange_eq_specRange (md lo sz : Nat) (hmd : md < 2 ^ 32) (hlo : lo < 2 ^ 32)
    (hsz : sz < 2 ^ 32) (hpos : sz ≠ 0) : mkRange md lo sz = specRange md lo sz := by
  have hshift : md <<< 32 < 2 ^ 64 := by
    rw [Nat.shiftLeft_eq]; omega
  have hlo64 : lo < 2 ^ 64 := by omega
  have hbase : (md <<< 32) ||| lo < 2 ^ 64 := Nat.or_lt_two_pow hshift hlo64
  unfold mkRange specRange add64 sub64
  simp only [Nat.mod_eq_of_lt hshift]
  generalize (md <<< 32) ||| lo = base at hbase ⊢
  rw [Prod.mk.injEq]
  refine ⟨Eq.refl base, ?_⟩
  omega

/-! ### The two loops of `parseAssignedOrReg` -/

/-- One 16-byte record as the code reads it is the record of the specification. -/
theorem step16_eq (p : List Byte) (k : Nat) (hk : 16 * k + 16 ≤ p.length) :
    (if load_u32 p (16 * k + 12) = 0 then none
     else some (mkRange (load_u32 p (16 * k + 4)) (load_u32 p (16 * k + 8))
            (load_u32 p (16 * k + 12)))) =
      specRecord16 ((p.drop (16 * k)).take 16) := by
  unfold specRecord16
  rw [← load_u32_eq_fieldU32 p 16 k 12 (by omega) hk,
    ← load_u32_eq_fieldU32 p 16 k 4 (by omega) hk,
    ← load_u32_eq_fieldU32 p 16 k 8 (by omega) hk]
  by_cases hz : load_u32 p (16 * k + 12) = 0
  · simp [hz]
  · simp only [hz, if_false]
    rw [mkRange_eq_specRange _ _ _ (load_u32_lt _ _) (load_u32_lt _ _) (load_u32_lt _ _) hz]

/-- One 12-byte record as the code reads it is the record of the specification. -/
theorem step12_eq (p : List Byte) (k : Nat) (hk : 12 * k + 12 ≤ p.length) :
    (if load_u32 p (12 * k + 8) = 0 then none
     else some (mkRange (load_u32 p (12 * k + 0)) (load_u32 p (12 * k + 4))
            (load_u32 p (12 * k + 8)))) =
      specRecord12 ((p.drop (12 * k)).take 12) := by
  unfold specRecord12
  rw [← load_u32_eq_fieldU32 p 12 k 8 (by omega) hk,
    ← load_u32_eq_fieldU32 p 12 k 0 (by omega) hk,
    ← load_u32_eq_fieldU32 p 12 k 4 (by omega) hk]
  by_cases hz : load_u32 p (12 * k + 8) = 0
  · simp [hz]
  · simp only [hz, if_false]
    rw [mkRange_eq_specRange _ _ _ (load_u32_lt _ _) (load_u32_lt _ _) (load_u32_lt _ _) hz]

/-- The 16-byte loop, started at record `k` with `d` records left, appends the ranges
of those `d` records in order. -/
theorem loop16_eq (p : List Byte) (m : Nat) (hm : 16 * m ≤ p.length) :
    ∀ d k r, k + d = m →
      loop16 p (16 * m) (16 * k) r =
        r ++ (List.range' k d).filterMap
          (fun j => specRecord16 ((p.drop (16 * j)).take 16)) := by
  intro d
  induction d with
  | zero =>
    intro k r hk
    rw [loop16]
    have : ¬ (16 * k + 16 ≤ 16 * m) := by omega
    simp [this]
  | succ d ih =>
    intro k r hk
    rw [loop16]
    have hle : 16 * k + 16 ≤ 16 * m := by omega
    have hnext : 16 * k + 16 = 16 * (k + 1) := by ring
    have hstep := step16_eq p k (by omega)
    rw [List.range'_succ, List.filterMap_cons, ← hstep]
    simp only [hle, if_true]
    by_cases hz : load_u32 p (16 * k + 12) = 0
    · simp only [hz, if_true]
      rw [hnext, ih (k + 1) r (by omega)]
    · simp only [hz, if_false]
      rw [hnext, ih (k + 1) _ (by omega)]
      simp

/-- The 12-byte loop, started at record `k` with `d` records left, appends the ranges
of those `d` records in order. -/
theorem loop12_eq (p : List Byte) (m : Nat) (hm : 12 * m ≤ p.length) :
    ∀ d k r, k + d = m →
      loop12 p (12 * m) (12 * k) r =
        r ++ (List.range' k d).filterMap
          (fun j => specRecord12 ((p.drop (12 * j)).take 12)) := by
  intro d
  induction d with
  | zero =>
    intro k r hk
    rw [loop12]
    have : ¬ (12 * k + 12 ≤ 12 * m) := by omega
    simp [this]
  | succ d ih =>
    intro k r hk
    rw [loop12]
    have hle : 12 * k + 12 ≤ 12 * m := by omega
    have hnext : 12 * k + 12 = 12 * (k + 1) := by ring
    have hstep := step12_eq p k (by omega)
    rw [List.range'_succ, List.filterMap_cons, ← hstep]
    simp only [hle, if_true]
    by_cases hz : load_u32 p (12 * k + 8) = 0
    · simp only [hz, if_true]
      rw [hnext, ih (k + 1) r (by omega)]
    · simp only [hz, if_false]
      rw [hnext, ih (k + 1) _ (by omega)]
      simp

/-- On a buffer of whole 16-byte records the decoder is the specified one. -/
theorem parse16_eq (p : List Byte) (h : p.length % 16 = 0) :
    parseAssignedOrReg (some p) = (records 16 p).filterMap specRecord16 := by
  have hn : p.length = 16 * (p.length / 16) := by omega
  unfold parseAssignedOrReg records
  simp only [h, if_true]
  rw [List.filterMap_map, List.range_eq_range']
  have h0 : (0 : Nat) = 16 * 0 := by norm_num
  conv_lhs => rw [hn]
  conv_lhs => arg 3; rw [h0]
  rw [loop16_eq p (p.length / 16) (by omega) (p.length / 16) 0 [] (by omega)]
  rfl

/-- On a buffer of whole 12-byte records that is not made of 16-byte records the
decoder is the specified one. -/
theorem parse12_eq (p : List Byte) (h : p.length % 12 = 0) (h16 : p.length % 16 ≠ 0) :
    parseAssignedOrReg (some p) = (records 12 p).filterMap specRecord12 := by
  have hn : p.length = 12 * (p.length / 12) := by omega
  unfold parseAssignedOrReg records
  simp only [h, h16, if_true, if_false]
  rw [List.filterMap_map, List.range_eq_range']
  have h0 : (0 : Nat) = 12 * 0 := by norm_num
  conv_lhs => rw [hn]
  conv_lhs => arg 3; rw [h0]
  rw [loop12_eq p (p.length / 12) (by omega) (p.length / 12) 0 [] (by omega)]
  rfl

/-! ### Range Decoder -/

/-- C1: for every byte buffer whose length is a multiple of 16, `parseAssignedOrReg`
returns exactly the ranges of the 16-byte records whose size field (bytes 12..15,
little-endian) is non-zero, in buffer order; the range of a record has
base `(u32 at bytes 4..7 << 32) | (u32 at bytes 8..11)` and end `base + size - 1`
(as an unsigned 64-bit integer); records of size 0 are omitted. -/
theorem parseAssignedOrReg_stride16 (buf : List Byte) (h : buf.length % 16 = 0) :
    parseAssignedOrReg (some buf) = (records 16 buf).filterMap specRecord16 :=
  parse16_eq buf h

/-- The records `{0,0,0x1000,0x100}`, `{0,0,0x2000,0}` decode to exactly
`[(0x1000, 0x10FF)]`. -/
theorem parseAssignedOrReg_stride16_witness :
    buf16Example.length % 16 = 0 ∧
      parseAssignedOrReg (some buf16Example) = [(0x1000, 0x10FF)] :=
  ⟨by decide, (parseAssignedOrReg_stride16 buf16Example (by decide)).trans (by decide)⟩

/-- C2: for every byte buffer whose length is a multiple of 12 and not of 16,
`parseAssignedOrReg` returns exactly the ranges of the 12-byte records whose size
field (bytes 8..11) is non-zero, in buffer order; the range of a record has base
`(u32 at bytes 0..3 << 32) | (u32 at bytes 4..7)` and end `base + size - 1` (as an
unsigned 64-bit integer); records of size 0 are omitted. -/
theorem parseAssignedOrReg_stride12 (buf : List Byte) (h12 : buf.length % 12 = 0)
    (h16 : buf.length % 16 ≠ 0) :
    parseAssignedOrReg (some buf) = (records 12 buf).filterMap specRecord12 :=
  parse12_eq buf h12 h16

/-- The records `{1,0x2000,0x10}`, `{0,0x3000,0}` decode to exactly
`[(0x100002000, 0x10000200F)]`. -/
theorem parseAssignedOrReg_stride12_witness :
    buf12Example.length % 12 = 0 ∧ buf12Example.length % 16 ≠ 0 ∧
      parseAssignedOrReg (some buf12Example) = [(0x100002000, 0x10000200F)] :=
  ⟨by decide, by decide,
    (parseAssignedOrReg_stride12 buf12Example (by decide) (by decide)).trans (by decide)⟩

/-- C3: `parseAssignedOrReg` returns the empty sequence for an absent buffer, for a
buffer of length 0, and for every buffer whose length is neither a multiple of 16
nor a multiple of 12. -/
theorem parseAssignedOrReg_unrecognised (data : Option (List Byte))
    (h : ∀ p, data = some p → p.length = 0 ∨ (p.length % 16 ≠ 0 ∧ p.length % 12 ≠ 0)) :
    parseAssignedOrReg data = [] := by
  cases data with
  | none => rfl
  | some p =>
    rcases h p rfl with h0 | ⟨h16, h12⟩
    · have hp : p = [] := List.eq_nil_of_length_eq_zero h0
      subst hp
      rw [parse16_eq [] (by decide)]
      rfl
    · unfold parseAssignedOrReg
      simp only [h16, h12, if_false]

/-- A 7-byte buffer decodes to no range. -/
theorem parseAssignedOrReg_unrecognised_witness :
    (∀ p, some buf7Example = some p →
        p.length = 0 ∨ (p.length % 16 ≠ 0 ∧ p.length % 12 ≠ 0)) ∧
      parseAssignedOrReg (some buf7Example) = [] :=
  have h : ∀ p, some buf7Example = some p →
      p.length = 0 ∨ (p.length % 16 ≠ 0 ∧ p.length % 12 ≠ 0) := by
    intro p hp
    cases hp
    exact Or.inr ⟨by decide, by decide⟩
  ⟨h, parseAssignedOrReg_unrecognised (some buf7Example) h⟩

/-! ### Scalar Decoder -/

/-- C7: on a raw byte buffer `cf_get_u32` (resp. `cf_get_u64`) yields a value exactly
when the buffer has at least 4 (resp. 8) bytes, and the value is the little-endian
unsigned integer of the first 4 (resp. 8) bytes, whatever follows them; on an absent
value, a string, a list, a mapping or any other non-numeric value both yield no
value. -/
theorem cf_get_data_or_nothing (bytes : List Byte) :
    cf_get_u32 (some (CFType.data bytes)) =
        (if 4 ≤ bytes.length then some (leValue (bytes.take 4)) else none) ∧
      cf_get_u64 (some (CFType.data bytes)) =
        (if 8 ≤ bytes.length then some (leValue (bytes.take 8)) else none) ∧
      cf_get_u32 none = none ∧ cf_get_u64 none = none ∧
      (∀ s, cf_get_u32 (some (CFType.string s)) = none ∧
        cf_get_u64 (some (CFType.string s)) = none) ∧
      (∀ items, cf_get_u32 (some (CFType.array items)) = none ∧
        cf_get_u64 (some (CFType.array items)) = none) ∧
      (∀ d, cf_get_u32 (some (CFType.dictionary d)) = none ∧
        cf_get_u64 (some (CFType.dictionary d)) = none) ∧
      cf_get_u32 (some CFType.other) = none ∧ cf_get_u64 (some CFType.other) = none := by
  refine ⟨?_, ?_, rfl, rfl, fun _ => ⟨rfl, rfl⟩, fun _ => ⟨rfl, rfl⟩, fun _ => ⟨rfl, rfl⟩,
    rfl, rfl⟩
  · by_cases h : 4 ≤ bytes.length
    · have := memcpyLE_eq_leValue bytes 4 0 (by omega)
      simp only [cf_get_u32, h, if_true, not_lt.mpr h, if_false, this, List.drop_zero]
    · simp only [cf_get_u32, h, if_false, not_le.mp h, if_true]
  · by_cases h : 8 ≤ bytes.length
    · have := memcpyLE_eq_leValue bytes 8 0 (by omega)
      simp only [cf_get_u64, h, if_true, not_lt.mpr h, if_false, this, List.drop_zero]
    · simp only [cf_get_u64, h, if_false, not_le.mp h, if_true]

/-! ### Memory-Descriptor Decoder -/

theorem rangeEnd_eq (a l : Nat) (hl : l ≠ 0) :
    sub64 (add64 a l) 1 = (a + l - 1) % 2 ^ 64 := by
  unfold sub64 add64
  omega

/-- The second half of the loop body pushes the range of form 2. -/
theorem parseIODeviceMemoryData_eq (r : List Range) (d : CFDictionary) :
    parseIODeviceMemoryData r d = r ++ (formRange (upperForm d)).toList := by
  unfold parseIODeviceMemoryData upperForm
  split
  · rename_i A L hA hL
    by_cases h8 : 8 ≤ A.length ∧ 8 ≤ L.length
    · have eA := memcpyLE_eq_leValue A 8 0 (by omega)
      have eL := memcpyLE_eq_leValue L 8 0 (by omega)
      simp only [List.drop_zero] at eA eL
      simp only [h8, and_self, if_true, eA, eL, formRange]
      by_cases hz : leValue (L.take 8) = 0
      · simp [hz]
      · simp [hz, specMemRange, rangeEnd_eq _ _ hz]
    · simp [h8, formRange]
  · simp [formRange]

/-- The loop body pushes the range the item contributes. -/
theorem parseIODeviceMemoryStep_eq (r : List Range) (item : CFType) :
    parseIODeviceMemoryStep r item = r ++ (specItem item).toList := by
  cases item with
  | dictionary d =>
    simp only [parseIODeviceMemoryStep, specItem, lowerForm]
    split
    · rename_i addr len ha hl
      by_cases hz : len = 0
      · simp [hz, formRange, parseIODeviceMemoryData_eq]
      · simp [hz, formRange, specMemRange, rangeEnd_eq _ _ hz]
    · rw [parseIODeviceMemoryData_eq]
      rfl
  | _ => simp [parseIODeviceMemoryStep, specItem]

theorem foldl_parseIODeviceMemoryStep (items : List CFType) :
    ∀ r, items.foldl parseIODeviceMemoryStep r = r ++ items.filterMap specItem := by
  induction items with
  | nil => intro r; simp
  | cons item rest ih =>
    intro r
    rw [List.foldl_cons, ih, parseIODeviceMemoryStep_eq, List.filterMap_cons]
    cases specItem item <;> simp

/-- On a list the decoder returns, in order, the range each item contributes. -/
theorem parseIODeviceMemory_eq (items : List CFType) :
    parseIODeviceMemory (some (CFType.array items)) = items.filterMap specItem := by
  simp [parseIODeviceMemory, foldl_parseIODeviceMemoryStep]

theorem formRange_eq_some (form : Option (Nat × Nat)) (r : Range)
    (h : formRange form = some r) :
    ∃ a l, form = some (a, l) ∧ l ≠ 0 ∧ r = specMemRange a l := by
  cases form with
  | none => simp [formRange] at h
  | some al =>
    obtain ⟨a, l⟩ := al
    by_cases hz : l = 0
    · simp [formRange, hz] at h
    · simp only [formRange, hz, if_false, Option.some.injEq] at h
      exact ⟨a, l, rfl, hz, h.symm⟩

theorem wellFormed_filterMap (ds : List CFDictionary) (als : List (Nat × Nat))
    (h : List.Forall₂
      (fun d al => cf_get_u64 (CFDictionaryGetValue d "address") = some al.1 ∧
        cf_get_u64 (CFDictionaryGetValue d "length") = some al.2 ∧ al.2 ≠ 0) ds als) :
    (ds.map CFType.dictionary).filterMap specItem =
      als.map (fun al => specMemRange al.1 al.2) := by
  induction h with
  | nil => rfl
  | cons hd _ ih =>
    obtain ⟨ha, hl, hz⟩ := hd
    rw [List.map_cons, List.filterMap_cons, List.map_cons, ih]
    simp [specItem, lowerForm, ha, hl, formRange, hz]

/-- C5: for every list of mappings in which each item has `"address"` and `"length"`
values that `cf_get_u64` resolves, to `a` and `l` with `l ≠ 0`, `parseIODeviceMemory`
returns exactly one range per item, in input order, the range of an item being
`[a, a + l - 1]` (end as an unsigned 64-bit integer); the output has as many ranges
as the input has items. -/
theorem parseIODeviceMemory_wellFormed (ds : List CFDictionary) (als : List (Nat × Nat))
    (h : List.Forall₂
      (fun d al => cf_get_u64 (CFDictionaryGetValue d "address") = some al.1 ∧
        cf_get_u64 (CFDictionaryGetValue d "length") = some al.2 ∧ al.2 ≠ 0) ds als) :
    parseIODeviceMemory (some (CFType.array (ds.map CFType.dictionary))) =
        als.map (fun al => specMemRange al.1 al.2) ∧
      (parseIODeviceMemory (some (CFType.array (ds.map CFType.dictionary)))).length =
        ds.length := by
  have e := wellFormed_filterMap ds als h
  rw [parseIODeviceMemory_eq, e]
  exact ⟨rfl, by rw [List.length_map, h.length_eq]⟩

/-- Three well-formed descriptors give exactly three ranges, in input order. -/
theorem parseIODeviceMemory_wellFormed_witness :
    parseIODeviceMemory
        (some (CFType.array ([descNumeric, descBuffers, descUnit].map CFType.dictionary))) =
        [(0x1000, 0x10FF), (0x2000, 0x200F), (0x3000, 0x3000)] ∧
      (parseIODeviceMemory
        (some (CFType.array
          ([descNumeric, descBuffers, descUnit].map CFType.dictionary)))).length = 3 :=
  parseIODeviceMemory_wellFormed [descNumeric, descBuffers, descUnit]
    [(0x1000, 0x100), (0x2000, 0x10), (0x3000, 1)]
    (List.Forall₂.cons ⟨by decide, by decide, by decide⟩
      (List.Forall₂.cons ⟨by decide, by decide, by decide⟩
        (List.Forall₂.cons ⟨by decide, by decide, by decide⟩ List.Forall₂.nil)))

/-- C6, as stated, fails: the mapping `descMixed` has length 0 under the lowercase
convention, yet it contributes the range of its `"Address"`/`"Length"` buffers. -/
theorem zero_length_lowercase_still_emits :
    cf_get_u64 (CFDictionaryGetValue descMixed "length") = some 0 ∧
      parseIODeviceMemory (some (CFType.array [CFType.dictionary descMixed])) =
        [(0x2000, 0x20FF)] ∧
      parseIODeviceMemory (some (CFType.array [CFType.dictionary descMixed])) ≠
        parseIODeviceMemory (some (CFType.array [])) := by
  refine ⟨by decide, by decide, by decide⟩

/-- C6, amended: a mapping item whose length is 0 under one key convention (the
lowercase `"length"` resolves to 0, or the `"Length"` buffer of at least 8 bytes
decodes to 0) contributes no range, provided the other convention does not emit a
range of its own (it is absent, unresolved or of length 0): the output is the same
as without the item. -/
theorem zero_length_contributes_nothing (d : CFDictionary) (before after : List CFType)
    (h : (cf_get_u64 (CFDictionaryGetValue d "length") = some 0 ∧
          formRange (upperForm d) = none) ∨
        ((∃ L, CFDictionaryGetValue d "Length" = some (CFType.data L) ∧ 8 ≤ L.length ∧
            leValue (L.take 8) = 0) ∧
          formRange (lowerForm d) = none)) :
    parseIODeviceMemory (some (CFType.array (before ++ CFType.dictionary d :: after))) =
      parseIODeviceMemory (some (CFType.array (before ++ after))) := by
  have hitem : specItem (CFType.dictionary d) = none := by
    rcases h with ⟨hlen, hup⟩ | ⟨⟨L, hL, h8, hz⟩, hlow⟩
    · have hlow : formRange (lowerForm d) = none := by
        unfold lowerForm
        rw [hlen]
        cases cf_get_u64 (CFDictionaryGetValue d "address") <;> simp [formRange]
      simp [specItem, hlow, hup]
    · have hup : formRange (upperForm d) = none := by
        unfold upperForm
        rw [hL]
        split
        · rename_i A L2 hA hL2
          cases hL2
          by_cases hc : 8 ≤ A.length ∧ 8 ≤ L.length
          · simp [hc, formRange, hz]
          · simp [hc, formRange]
        · rfl
      simp [specItem, hlow, hup]
  rw [parseIODeviceMemory_eq, parseIODeviceMemory_eq, List.filterMap_append,
    List.filterMap_cons, hitem, List.filterMap_append]

/-- A descriptor with only `"address"` and `"length" = 0`, between two well-formed
ones, leaves the output as if it were not there. -/
theorem zero_length_contributes_nothing_witness :
    parseIODeviceMemory (some (CFType.array
        ([CFType.dictionary descNumeric] ++ CFType.dictionary descZero ::
          [CFType.dictionary descUnit]))) =
      parseIODeviceMemory (some (CFType.array
        ([CFType.dictionary descNumeric] ++ [CFType.dictionary descUnit]))) :=
  zero_length_contributes_nothing descZero [CFType.dictionary descNumeric]
    [CFType.dictionary descUnit] (Or.inl ⟨by decide, by decide⟩)

/-! ### The invariant `end >= base` -/

theorem specRange_le (hi lo size : Nat) (hz : size ≠ 0)
    (h : ((hi <<< 32) ||| lo) + size ≤ 2 ^ 64) :
    (specRange hi lo size).1 ≤ (specRange hi lo size).2 := by
  unfold specRange
  generalize (hi <<< 32) ||| lo = base at h
  show base ≤ (base + size - 1) % 2 ^ 64
  omega

theorem specMemRange_le (a l : Nat) (hz : l ≠ 0) (h : a + l ≤ 2 ^ 64) :
    (specMemRange a l).1 ≤ (specMemRange a l).2 := by
  show a ≤ (a + l - 1) % 2 ^ 64
  omega

/-- C4, as stated, fails: the 16-byte record `{0, 0xFFFFFFFF, 0xFFFFFFFF, 2}` has base
`2^64 - 1` and size 2, and `base + size - 1` wraps to 0, so the range produced has
`end < base`. -/
theorem range_end_wraps_below_base :
    parseAssignedOrReg (some bufWrapExample) = [(0xFFFFFFFFFFFFFFFF, 0)] ∧
      ¬ (∀ r ∈ parseAssignedOrReg (some bufWrapExample), r.1 ≤ r.2) := by
  have e : parseAssignedOrReg (some bufWrapExample) = [(0xFFFFFFFFFFFFFFFF, 0)] :=
    (parse16_eq bufWrapExample (by decide)).trans (by decide)
  refine ⟨e, ?_⟩
  rw [e]
  decide

/-- C4, amended: every range produced by `parseAssignedOrReg` or by
`parseIODeviceMemory` satisfies `end >= base`, provided no record or descriptor of the
input has `base + size` above `2^64` (so that `base + size - 1` does not wrap). -/
theorem range_end_ge_base (data : Option (List Byte)) (prop : Option CFType)
    (h16 : ∀ p, data = some p → p.length % 16 = 0 → ∀ record ∈ records 16 p,
      ((fieldU32 record 4 <<< 32) ||| fieldU32 record 8) + fieldU32 record 12 ≤ 2 ^ 64)
    (h12 : ∀ p, data = some p → p.length % 16 ≠ 0 → ∀ record ∈ records 12 p,
      ((fieldU32 record 0 <<< 32) ||| fieldU32 record 4) + fieldU32 record 8 ≤ 2 ^ 64)
    (hmem : ∀ items, prop = some (CFType.array items) →
      ∀ d, CFType.dictionary d ∈ items →
        (∀ al ∈ lowerForm d, al.1 + al.2 ≤ 2 ^ 64) ∧
        (∀ al ∈ upperForm d, al.1 + al.2 ≤ 2 ^ 64)) :
    (∀ r ∈ parseAssignedOrReg data, r.1 ≤ r.2) ∧
      (∀ r ∈ parseIODeviceMemory prop, r.1 ≤ r.2) := by
  constructor
  · intro r hr
    cases data with
    | none => simp [parseAssignedOrReg] at hr
    | some p =>
      by_cases c16 : p.length % 16 = 0
      · rw [parse16_eq p c16, List.mem_filterMap] at hr
        obtain ⟨record, hmem16, hrec⟩ := hr
        have hb := h16 p rfl c16 record hmem16
        unfold specRecord16 at hrec
        by_cases hz : fieldU32 record 12 = 0
        · simp [hz] at hrec
        · simp only [hz, if_false, Option.some.injEq] at hrec
          rw [← hrec]
          exact specRange_le _ _ _ hz hb
      · by_cases c12 : p.length % 12 = 0
        · rw [parse12_eq p c12 c16, List.mem_filterMap] at hr
          obtain ⟨record, hmem12, hrec⟩ := hr
          have hb := h12 p rfl c16 record hmem12
          unfold specRecord12 at hrec
          by_cases hz : fieldU32 record 8 = 0
          · simp [hz] at hrec
          · simp only [hz, if_false, Option.some.injEq] at hrec
            rw [← hrec]
            exact specRange_le _ _ _ hz hb
        · simp [parseAssignedOrReg, c16, c12] at hr
  · intro r hr
    cases prop with
    | none => simp [parseIODeviceMemory] at hr
    | some v =>
      cases v with
      | array items =>
        rw [parseIODeviceMemory_eq, List.mem_filterMap] at hr
        obtain ⟨item, hitem, hspec⟩ := hr
        cases item with
        | dictionary d =>
          obtain ⟨hlow, hup⟩ := hmem items rfl d hitem
          simp only [specItem] at hspec
          cases hf : formRange (lowerForm d) with
          | some r1 =>
            rw [hf] at hspec
            simp only [Option.some.injEq] at hspec
            obtain ⟨a, l, hform, hz, hr1⟩ := formRange_eq_some _ _ hf
            have hb := hlow (a, l) (by rw [hform]; exact rfl)
            rw [← hspec, hr1]
            exact specMemRange_le a l hz hb
          | none =>
            rw [hf] at hspec
            simp only at hspec
            obtain ⟨a, l, hform, hz, hr1⟩ := formRange_eq_some _ _ hspec
            have hb := hup (a, l) (by rw [hform]; exact rfl)
            rw [hr1]
            exact specMemRange_le a l hz hb
        | _ => simp [specItem] at hspec
      | _ => simp [parseIODeviceMemory] at hr

/-- The invariant holds for the two-record example buffer and a one-descriptor list. -/
theorem range_end_ge_base_witness :
    (∀ r ∈ parseAssignedOrReg (some buf16Example), r.1 ≤ r.2) ∧
      (∀ r ∈ parseIODeviceMemory (some (CFType.array [CFType.dictionary descBuffers])),
        r.1 ≤ r.2) :=
  range_end_ge_base (some buf16Example)
    (some (CFType.array [CFType.dictionary descBuffers]))
    (by
      intro p hp _
      cases hp
      decide)
    (by
      intro p hp hn
      cases hp
      exact absurd (by decide) hn)
    (by
      intro items hitems d hd
      cases hitems
      have hd2 : d = descBuffers := by simpa using hd
      subst hd2
      exact ⟨by decide, by decide⟩)

/-! ### Hexadecimal output -/

theorem hexDigitUpper_eq (d : Nat) (h : d < 16) : hexDigitUpper d = specHexDigit d := by
  interval_cases d <;> decide

theorem hexUpper_lt (n : Nat) (h : n < 16) : hexUpper n = [hexDigitUpper n] := by
  rw [hexUpper]
  simp [h]

theorem hexUpper_ge (n : Nat) (h : 16 ≤ n) :
    hexUpper n = hexUpper (n / 16) ++ [hexDigitUpper (n % 16)] := by
  rw [hexUpper]
  simp [not_lt.mpr h]

/-- A value below `2^16`, printed with `hex`, `uppercase`, `setw(4)` and
`setfill('0')`, is its four hexadecimal digits. -/
theorem setwFill_hexUpper (x : Nat) (h : x < 65536) :
    String.mk (setwFill 4 (Char.ofNat 48) (hexUpper x)) = hex4 x := by
  have hz : specHexDigit 0 = Char.ofNat 48 := by decide
  unfold hex4
  by_cases h1 : x < 16
  · rw [hexUpper_lt x h1, hexDigitUpper_eq x h1]
    have e1 : x / 4096 % 16 = 0 := by omega
    have e2 : x / 256 % 16 = 0 := by omega
    have e3 : x / 16 % 16 = 0 := by omega
    have e4 : x % 16 = x := by omega
    rw [e1, e2, e3, e4, hz]
    rfl
  · have g1 : 16 ≤ x := by omega
    rw [hexUpper_ge x g1, hexDigitUpper_eq (x % 16) (by omega)]
    by_cases h2 : x / 16 < 16
    · rw [hexUpper_lt _ h2, hexDigitUpper_eq _ h2]
      have e1 : x / 4096 % 16 = 0 := by omega
      have e2 : x / 256 % 16 = 0 := by omega
      have e3 : x / 16 % 16 = x / 16 := by omega
      rw [e1, e2, e3, hz]
      rfl
    · have g2 : 16 ≤ x / 16 := by omega
      rw [hexUpper_ge _ g2, hexDigitUpper_eq (x / 16 % 16) (by omega)]
      by_cases h3 : x / 16 / 16 < 16
      · rw [hexUpper_lt _ h3, hexDigitUpper_eq _ h3]
        have e1 : x / 4096 % 16 = 0 := by omega
        have e2 : x / 256 % 16 = x / 16 / 16 := by omega
        rw [e1, e2, hz]
        rfl
      · have g3 : 16 ≤ x / 16 / 16 := by omega
        have h4 : x / 16 / 16 / 16 < 16 := by omega
        rw [hexUpper_ge _ g3, hexDigitUpper_eq (x / 16 / 16 % 16) (by omega),
          hexUpper_lt _ h4, hexDigitUpper_eq _ h4]
        have e1 : x / 4096 % 16 = x / 16 / 16 / 16 := by omega
        have e2 : x / 256 % 16 = x / 16 / 16 % 16 := by omega
        rw [e1, e2]
        rfl

theorem and_0xFFFF_lt (v : Nat) : v &&& 0xFFFF < 65536 :=
  Nat.lt_of_le_of_lt Nat.and_le_right (by norm_num)

theorem append_ne_empty (s t : String) (h : s ≠ "") : s ++ t ≠ "" := by
  intro e
  apply h
  have hd := congrArg String.data e
  simp at hd
  exact String.ext hd.1

/-- What `pciIdString` returns on a property set. -/
theorem pciIdString_eq (props : CFDictionary) :
    pciIdString (some props) =
      match cf_get_u32 (CFDictionaryGetValue props "vendor-id"),
        cf_get_u32 (CFDictionaryGetValue props "device-id") with
      | some v, some d => hex4 (v &&& 0xFFFF) ++ ":" ++ hex4 (d &&& 0xFFFF)
      | _, _ => "" := by
  unfold pciIdString
  simp only
  split
  · rename_i v d hv hd
    rw [setwFill_hexUpper _ (and_0xFFFF_lt v), setwFill_hexUpper _ (and_0xFFFF_lt d)]
  · rfl

theorem hex4_ne_empty (x : Nat) (t : String) : hex4 x ++ t ≠ "" := by
  apply append_ne_empty
  intro e
  have hd := congrArg String.data e
  simp [hex4] at hd

/-! ### Identifier Resolver -/

/-- The branch of `prettyName` taken once a usable name `s` is found. -/
theorem suffix_branch_eq (props : CFDictionary) (ioClass s : String) :
    (if ioClass = "IOPCIDevice" then
        if pciIdString (some props) ≠ "" then s ++ (" [" ++ pciIdString (some props) ++ "]")
        else s
      else s) = withIdSuffix props ioClass s := by
  unfold withIdSuffix
  by_cases hc : ioClass = "IOPCIDevice"
  · simp only [hc, if_true]
    rw [pciIdString_eq]
    cases hv : cf_get_u32 (CFDictionaryGetValue props "vendor-id") with
    | none => simp
    | some v =>
      cases hd : cf_get_u32 (CFDictionaryGetValue props "device-id") with
      | none => simp
      | some d =>
        have hne : hex4 (v &&& 0xFFFF) ++ ":" ++ hex4 (d &&& 0xFFFF) ≠ "" := by
          rw [String.append_assoc]
          exact hex4_ne_empty _ _
        simp only [hne, ne_eq, not_false_eq_true, if_true]
        simp only [String.append_assoc]
  · simp only [hc, if_false]

theorem prettyNameLoop_eq (props : CFDictionary) (ioClass : String) (ks : List String) :
    prettyNameLoop props ioClass ks =
      match ks.findSome? (usableName props) with
      | some s => withIdSuffix props ioClass s
      | none => ioClass := by
  induction ks with
  | nil => rfl
  | cons k ks ih =>
    rw [prettyNameLoop, List.findSome?_cons]
    unfold usableName
    cases hv : CFDictionaryGetValue props k with
    | none => simpa using ih
    | some v =>
      cases v with
      | string t =>
        by_cases he : cf2str (some t) = ""
        · simpa [he] using ih
        · simp only [he, ne_eq, not_false_eq_true, if_true, if_false]
          exact suffix_branch_eq props ioClass (cf2str (some t))
      | _ => simpa using ih

/-- C8: when the first usable candidate name of a property set is `s`, `prettyName`
returns `s ++ " [" ++ V ++ ":" ++ D ++ "]"` if the class name is `"IOPCIDevice"` and
`cf_get_u32` resolves both `"vendor-id"` and `"device-id"`, to `v` and `d`, where `V`
and `D` are the four uppercase zero-padded hexadecimal digits of `v & 0xFFFF` and
`d & 0xFFFF`; in every other case it returns `s` unchanged. -/
theorem prettyName_of_firstUsable (props : CFDictionary) (ioClass s : String)
    (h : firstUsable props = some s) :
    prettyName props ioClass =
      if ioClass = "IOPCIDevice" then
        match cf_get_u32 (CFDictionaryGetValue props "vendor-id"),
          cf_get_u32 (CFDictionaryGetValue props "device-id") with
        | some v, some d =>
          s ++ " [" ++ hex4 (v &&& 0xFFFF) ++ ":" ++ hex4 (d &&& 0xFFFF) ++ "]"
        | _, _ => s
      else s := by
  unfold prettyName
  unfold firstUsable at h
  rw [prettyNameLoop_eq, h]
  rfl

/-- With only `"model" = "Widget"`, class `"IOPCIDevice"` and ids 0x106B / 0x1234 the
name is `"Widget [106B:1234]"`. -/
theorem prettyName_of_firstUsable_witness :
    firstUsable propsWidget = some "Widget" ∧
      prettyName propsWidget "IOPCIDevice" = "Widget [106B:1234]" :=
  ⟨by decide,
    (prettyName_of_firstUsable propsWidget "IOPCIDevice" "Widget" (by decide)).trans
      (by decide)⟩

/-- C9: when none of the candidate keys holds a non-empty string, `prettyName`
returns the class name verbatim, with no identifier suffix, whatever the class and
the vendor and device ids. -/
theorem prettyName_no_candidate (props : CFDictionary) (ioClass : String)
    (h : ∀ k ∈ prettyNameKeys, holdsNonEmptyString props k = false) :
    prettyName props ioClass = ioClass := by
  have hnone : ∀ ks : List String, (∀ k ∈ ks, holdsNonEmptyString props k = false) →
      ks.findSome? (usableName props) = none := by
    intro ks hks
    rw [List.findSome?_eq_none_iff]
    intro k hk
    have hk2 := hks k hk
    unfold holdsNonEmptyString at hk2
    unfold usableName
    cases hv : CFDictionaryGetValue props k with
    | none => rfl
    | some v =>
      cases v with
      | string t =>
        rw [hv] at hk2
        have ht : t = "" := by simpa using hk2
        subst ht
        rfl
      | _ => rfl
  unfold prettyName
  rw [prettyNameLoop_eq, hnone prettyNameKeys h]

/-- With no usable candidate, class `"IOPCIDevice"` and both ids present, the name is
the bare class name. -/
theorem prettyName_no_candidate_witness :
    (∀ k ∈ prettyNameKeys, holdsNonEmptyString propsNameless k = false) ∧
      prettyName propsNameless "IOPCIDevice" = "IOPCIDevice" :=
  ⟨by decide, prettyName_no_candidate propsNameless "IOPCIDevice" (by decide)⟩

/-- C10, as stated, fails: with no usable candidate key and an empty class name, both
`prettyName` and the device field stored by `collect` are the empty string. -/
theorem display_name_empty_for_empty_class :
    prettyName [] "" = "" ∧ collectDevice [] "" = "" := by
  refine ⟨by decide, by decide⟩

theorem withIdSuffix_ne_empty (props : CFDictionary) (ioClass s : String) (hs : s ≠ "") :
    withIdSuffix props ioClass s ≠ "" := by
  unfold withIdSuffix
  split
  · split
    · simp only [String.append_assoc]
      exact append_ne_empty _ _ hs
    · exact hs
  · exact hs

theorem usableName_ne_empty (props : CFDictionary) (k s : String)
    (h : usableName props k = some s) : s ≠ "" := by
  unfold usableName at h
  split at h
  · rename_i v hv
    by_cases he : cf2str (some v) = ""
    · simp [he] at h
    · simp only [he, if_false, Option.some.injEq] at h
      rw [← h]
      exact he
  · simp at h

/-- C10, amended: for every property set and every non-empty class name, the display
name returned by `prettyName`, and the device field `collect` stores from it, is not
the empty string. -/
theorem display_name_ne_empty (props : CFDictionary) (ioClass : String)
    (h : ioClass ≠ "") :
    prettyName props ioClass ≠ "" ∧ collectDevice props ioClass ≠ "" := by
  have hp : prettyName props ioClass ≠ "" := by
    unfold prettyName
    rw [prettyNameLoop_eq]
    cases hf : prettyNameKeys.findSome? (usableName props) with
    | none => exact h
    | some s =>
      obtain ⟨k, _, hk⟩ := List.exists_of_findSome?_eq_some hf
      exact withIdSuffix_ne_empty props ioClass s (usableName_ne_empty props k s hk)
  refine ⟨hp, ?_⟩
  unfold collectDevice
  simp only [hp, if_false]
  exact hp

/-- With class `"AppleSPU"` the example property sets get non-empty names. -/
theorem display_name_ne_empty_witness :
    prettyName propsNameless "AppleSPU" ≠ "" ∧ collectDevice propsNameless "AppleSPU" ≠ "" :=
  display_name_ne_empty propsNameless "AppleSPU" (by decide)


/-! ### Category labels -/

/-- C15, as stated, fails: the two different recognized tags `"I2C"` and `"SoC-IO"`
get the same note. -/
theorem note_shared_by_I2C_and_SoC_IO :
    "I2C" ∈ recognizedTags ∧ "SoC-IO" ∈ recognizedTags ∧ "I2C" ≠ "SoC-IO" ∧
      collectNote "I2C" = collectNote "SoC-IO" := by
  refine ⟨by decide, by decide, by decide, by decide⟩

/-- C15, amended: two different recognized tags get different notes unless they are
`"I2C"` and `"SoC-IO"`, which share one note; and for every tag outside the recognized
set the note is the tag itself. -/
theorem collectNote_distinct_or_identity :
    (∀ t1 ∈ recognizedTags, ∀ t2 ∈ recognizedTags, t1 ≠ t2 →
        collectNote t1 = collectNote t2 →
        (t1 = "I2C" ∧ t2 = "SoC-IO") ∨ (t1 = "SoC-IO" ∧ t2 = "I2C")) ∧
      (∀ t, t ∉ recognizedTags → collectNote t = t) := by
  constructor
  · decide
  · intro t ht
    simp only [recognizedTags, List.mem_cons, List.mem_singleton, not_or] at ht
    obtain ⟨h1, h2, h3, h4, h5, h6, _⟩ := ht
    simp [collectNote, h1, h2, h3, h4, h5, h6]

/-- The tags `"PCIe"` and `"USB"` get different notes, and the unrecognized tag
`"Thunderbolt"` is its own note. -/
theorem collectNote_distinct_or_identity_witness :
    collectNote "PCIe" ≠ collectNote "USB" ∧ collectNote "Thunderbolt" = "Thunderbolt" :=
  ⟨fun h =>
      absurd (collectNote_distinct_or_identity.1 "PCIe" (by decide) "USB" (by decide)
        (by decide) h) (by decide),
    collectNote_distinct_or_identity.2 "Thunderbolt" (by decide)⟩

/-! ### Stride selection and the unused bytes -/

theorem records_length (stride : Nat) (buf : List Byte) :
    (records stride buf).length = buf.length / stride := by
  simp [records]

/-- C16: a buffer whose length is a multiple of both 16 and 12 is decoded with the
16-byte layout: the output is that of the `length / 16` consecutive 16-byte records
(each read from its byte 4 on), not that of the 12-byte layout. -/
theorem parseAssignedOrReg_stride16_first (buf : List Byte) (h16 : buf.length % 16 = 0)
    (h12 : buf.length % 12 = 0) :
    parseAssignedOrReg (some buf) = (records 16 buf).filterMap specRecord16 ∧
      (records 16 buf).length = buf.length / 16 ∧ buf.length % 48 = 0 :=
  ⟨parse16_eq buf h16, records_length 16 buf, by omega⟩

/-- A 48-byte buffer is decoded as three 16-byte records, which differs from what its
four 12-byte records would give. -/
theorem parseAssignedOrReg_stride16_first_witness :
    parseAssignedOrReg (some buf48Example) =
        [(0x1000, 0x10FF), (0x2000, 0x21FF), (0x3000, 0x32FF)] ∧
      (records 12 buf48Example).filterMap specRecord12 = [(0, 0xFFF), (0x3000, 0x32FF)] :=
  ⟨(parseAssignedOrReg_stride16_first buf48Example (by decide) (by decide)).1.trans
      (by decide),
    by decide⟩

theorem memcpyLE_congr (p q : List Byte) (k : Nat) :
    ∀ off, (∀ j, j < k → p.getD (off + j) 0 = q.getD (off + j) 0) →
      memcpyLE p off k = memcpyLE q off k := by
  induction k with
  | zero => intro off _; rfl
  | succ k ih =>
    intro off h
    have h0 := h 0 (by omega)
    simp only [Nat.add_zero] at h0
    have hrest : ∀ j, j < k → p.getD (off + 1 + j) 0 = q.getD (off + 1 + j) 0 := by
      intro j hj
      have := h (j + 1) (by omega)
      rwa [show off + (j + 1) = off + 1 + j by omega] at this
    simp only [memcpyLE, h0, ih (off + 1) hrest]

/-- C19: two buffers of the same length, a multiple of 16, that agree on bytes 4..15 of
every 16-byte record decode to the same range sequence: the first 4 bytes of each
record are ignored. -/
theorem parseAssignedOrReg_ignores_first_word (a b : List Byte)
    (hlen : a.length = b.length) (h16 : a.length % 16 = 0)
    (hagree : ∀ i, i < a.length → 4 ≤ i % 16 → a.getD i 0 = b.getD i 0) :
    parseAssignedOrReg (some a) = parseAssignedOrReg (some b) := by
  rw [parse16_eq a h16, parse16_eq b (hlen ▸ h16)]
  unfold records
  rw [List.filterMap_map, List.filterMap_map, ← hlen]
  apply List.filterMap_congr
  intro k hk
  have hk2 : k < a.length / 16 := List.mem_range.mp hk
  have hka : 16 * k + 16 ≤ a.length := by omega
  have hload : ∀ c, 4 ≤ c → c + 4 ≤ 16 → load_u32 a (16 * k + c) = load_u32 b (16 * k + c) := by
    intro c hc1 hc2
    unfold load_u32
    apply memcpyLE_congr
    intro j hj
    exact hagree (16 * k + c + j) (by omega) (by omega)
  simp only [Function.comp]
  rw [← step16_eq a k hka, ← step16_eq b k (hlen ▸ hka),
    hload 4 (by omega) (by omega), hload 8 (by omega) (by omega),
    hload 12 (by omega) (by omega)]

/-- The two-record example and its variant with other first words decode alike. -/
theorem parseAssignedOrReg_ignores_first_word_witness :
    parseAssignedOrReg (some buf16Example) = parseAssignedOrReg (some buf16Variant) :=
  parseAssignedOrReg_ignores_first_word buf16Example buf16Variant (by decide) (by decide)
    (by decide)

/-! ### The capitalised form of a memory descriptor -/

theorem parseIODeviceMemory_insert (item : CFType) (before after : List CFType) :
    parseIODeviceMemory (some (CFType.array (before ++ item :: after))) =
      parseIODeviceMemory (some (CFType.array before)) ++ (specItem item).toList ++
        parseIODeviceMemory (some (CFType.array after)) := by
  simp only [parseIODeviceMemory_eq, List.filterMap_append, List.filterMap_cons]
  cases specItem item <;> simp

/-- C18: a list item that is a mapping for which the lowercase `"address"`/`"length"`
form emits no range contributes exactly `[A, A + L - 1]` (end as an unsigned 64-bit
integer) when `"Address"` and `"Length"` are both byte buffers of at least 8 bytes
whose first 8 bytes decode to `A` and `L` with `L ≠ 0`, and nothing in every other
case; an item that is not a mapping contributes nothing; a property value that is
absent or not a list gives no range. -/
theorem parseIODeviceMemory_capitalised :
    (∀ (d : CFDictionary) (before after : List CFType),
        (¬ ∃ a l, cf_get_u64 (CFDictionaryGetValue d "address") = some a ∧
          cf_get_u64 (CFDictionaryGetValue d "length") = some l ∧ l ≠ 0) →
        parseIODeviceMemory (some (CFType.array (before ++ CFType.dictionary d :: after))) =
          parseIODeviceMemory (some (CFType.array before)) ++
            (match CFDictionaryGetValue d "Address", CFDictionaryGetValue d "Length" with
             | some (CFType.data A), some (CFType.data L) =>
               if 8 ≤ A.length ∧ 8 ≤ L.length ∧ leValue (L.take 8) ≠ 0 then
                 [(leValue (A.take 8),
                   (leValue (A.take 8) + leValue (L.take 8) - 1) % 2 ^ 64)]
               else []
             | _, _ => []) ++
            parseIODeviceMemory (some (CFType.array after))) ∧
      (∀ (item : CFType) (before after : List CFType),
        (∀ d, item ≠ CFType.dictionary d) →
        parseIODeviceMemory (some (CFType.array (before ++ item :: after))) =
          parseIODeviceMemory (some (CFType.array (before ++ after)))) ∧
      (∀ prop : Option CFType, (∀ items, prop ≠ some (CFType.array items)) →
        parseIODeviceMemory prop = []) := by
  refine ⟨?_, ?_, ?_⟩
  · intro d before after hlow
    rw [parseIODeviceMemory_insert]
    have hlowNone : formRange (lowerForm d) = none := by
      cases hf : formRange (lowerForm d) with
      | none => rfl
      | some r =>
        exfalso
        obtain ⟨a, l, hform, hz, _⟩ := formRange_eq_some _ _ hf
        apply hlow
        refine ⟨a, l, ?_⟩
        unfold lowerForm at hform
        split at hform
        · rename_i a2 l2 ha hl
          simp only [Option.some.injEq, Prod.mk.injEq] at hform
          exact ⟨hform.1 ▸ ha, hform.2 ▸ hl, hz⟩
        · simp at hform
    have hitem : (specItem (CFType.dictionary d)).toList =
        (match CFDictionaryGetValue d "Address", CFDictionaryGetValue d "Length" with
         | some (CFType.data A), some (CFType.data L) =>
           if 8 ≤ A.length ∧ 8 ≤ L.length ∧ leValue (L.take 8) ≠ 0 then
             [(leValue (A.take 8),
               (leValue (A.take 8) + leValue (L.take 8) - 1) % 2 ^ 64)]
           else []
         | _, _ => []) := by
      simp only [specItem, hlowNone, upperForm]
      split
      · rename_i A L hA hL
        by_cases h8 : 8 ≤ A.length ∧ 8 ≤ L.length
        · by_cases hz : leValue (L.take 8) = 0
          · simp [h8, hz, formRange]
          · simp [h8, hz, formRange, specMemRange]
        · have h8b : ¬ (8 ≤ A.length ∧ 8 ≤ L.length ∧ leValue (L.take 8) ≠ 0) := by
            intro hc
            exact h8 ⟨hc.1, hc.2.1⟩
          simp only [h8, h8b, if_false, formRange, Option.toList]
      · simp [formRange]
    rw [hitem]
  · intro item before after hnd
    have hitem : specItem item = none := by
      cases item with
      | dictionary d => exact absurd rfl (hnd d)
      | _ => rfl
    simp only [parseIODeviceMemory_eq, List.filterMap_append, List.filterMap_cons, hitem]
  · intro prop hna
    cases prop with
    | none => rfl
    | some v =>
      cases v with
      | array items => exact absurd rfl (hna items)
      | _ => rfl

/-- A descriptor with only `"Address"` (8 bytes, 0x4000) and `"Length"` (12 bytes, the
first 8 holding 0x20) contributes `(0x4000, 0x401F)` between its neighbours. -/
theorem parseIODeviceMemory_capitalised_witness :
    parseIODeviceMemory (some (CFType.array
        ([CFType.dictionary descNumeric] ++ CFType.dictionary descCapital ::
          [CFType.other, CFType.dictionary descUnit]))) =
      [(0x1000, 0x10FF), (0x4000, 0x401F), (0x3000, 0x3000)] :=
  (parseIODeviceMemory_capitalised.1 descCapital [CFType.dictionary descNumeric]
    [CFType.other, CFType.dictionary descUnit]
    (by
      rintro ⟨a, l, ha, _, _⟩
      have hn : cf_get_u64 (CFDictionaryGetValue descCapital "address") = none := by
        decide
      rw [hn] at ha
      cases ha)).trans (by decide)

/-! ### Interrupt Summarizer -/

theorem spec_append_ne (t : String) : "Spec:" ++ t ≠ "" ∧ "Spec:" ++ t ≠ "N/A" := by
  constructor
  · exact append_ne_empty _ _ (by decide)
  · intro e
    have hd := congrArg String.data e
    rw [String.data_append] at hd
    have h1 : "Spec:".data = ['S', 'p', 'e', 'c', ':'] := rfl
    have h2 : "N/A".data = ['N', '/', 'A'] := rfl
    rw [h1, h2] at hd
    simp at hd

theorem irqSpecText_eq (v : CFType) : ∃ t, irqSpecText v = "Spec:" ++ t := by
  cases v with
  | data d => exact ⟨streamDec d.length ++ "B", by simp [irqSpecText, String.append_assoc]⟩
  | array a =>
    exact ⟨streamDec a.length ++ " item(s)", by simp [irqSpecText, String.append_assoc]⟩
  | number n => exact ⟨"0 item(s)", show "Spec:0 item(s)" = "Spec:" ++ "0 item(s)" by decide⟩
  | string s => exact ⟨"0 item(s)", show "Spec:0 item(s)" = "Spec:" ++ "0 item(s)" by decide⟩
  | dictionary d =>
    exact ⟨"0 item(s)", show "Spec:0 item(s)" = "Spec:" ++ "0 item(s)" by decide⟩
  | other => exact ⟨"0 item(s)", show "Spec:0 item(s)" = "Spec:" ++ "0 item(s)" by decide⟩

theorem irqSpecText_append_ne (v : CFType) (t : String) :
    irqSpecText v ++ t ≠ "" ∧ irqSpecText v ++ t ≠ "N/A" := by
  obtain ⟨u, hu⟩ := irqSpecText_eq v
  rw [hu, String.append_assoc]
  exact spec_append_ne _

theorem suffix_branch (ss c : String) :
    (if c ≠ "" then ss ++ ", " ++ c else ss) = (if c = "" then ss else ss ++ (", " ++ c)) := by
  by_cases he : c = ""
  · simp only [he, ne_eq, not_true_eq_false, if_false, if_true]
  · simp only [he, ne_eq, not_false_eq_true, if_false, if_true, String.append_assoc]

/-- What `irqInfo` returns when `"IOInterruptSpecifiers"` is present. -/
theorem irqInfo_of_present (props : CFDictionary) (v : CFType)
    (hv : CFDictionaryGetValue props "IOInterruptSpecifiers" = some v) :
    irqInfo (some props) =
      (irqController props).map
        (fun c => if c = "" then irqSpecText v else irqSpecText v ++ (", " ++ c)) := by
  have hlit : "Spec:" ++ streamDec 0 ++ " item(s)" = "Spec:0 item(s)" := by decide
  simp only [irqInfo, hv]
  cases hc : irqController props with
  | none => rfl
  | some c =>
    simp only [Option.map_some']
    rw [suffix_branch]
    cases v with
    | data d => rfl
    | array a => rfl
    | number n => simp only [hlit, irqSpecText]
    | string s => simp only [hlit, irqSpecText]
    | dictionary d => simp only [hlit, irqSpecText]
    | other => simp only [hlit, irqSpecText]

theorem irqInfo_of_absent (props : CFDictionary)
    (hv : CFDictionaryGetValue props "IOInterruptSpecifiers" = none) :
    irqInfo (some props) = some "" := by
  simp only [irqInfo, hv]

/-- C12, as stated, fails: with a 4-byte specifier and an `"IOInterruptController"`
that is a number, `irqInfo` has no defined result (the value is cast to a string
unchecked), so it does not return `"Spec:4B"`; and with the controller string
`a`, NUL, `b` it appends `", a"`, not `", "` followed by that string. -/
theorem irqInfo_controller_not_a_plain_string :
    irqInfo (some propsIrqCtrlNumber) = none ∧
      irqInfo (some propsIrqCtrlNumber) ≠ some "Spec:4B" ∧
      irqInfo (some propsIrqCtrlNul) = some "Spec:4B, a" ∧
      irqInfo (some propsIrqCtrlNul) ≠ some ("Spec:4B" ++ ", " ++ textWithNul) := by
  refine ⟨by decide, by decide, by decide, by decide⟩

/-- C12, amended: when `"IOInterruptController"` is absent or a string, `irqInfo`
returns `"Spec:" ++ decimal(N) ++ "B"` for a specifier that is a raw buffer of `N` bytes
and `"Spec:" ++ decimal(N) ++ " item(s)"` for one that is a list of `N` items, followed
by `", " ++ c` exactly when the controller is a string whose text `c` (up to the first
NUL) is not empty, and by nothing when it is absent or its text is empty. -/
theorem irqInfo_format (props : CFDictionary) (ctrl : Option String)
    (hc : castCFString (CFDictionaryGetValue props "IOInterruptController") = some ctrl) :
    (∀ b, CFDictionaryGetValue props "IOInterruptSpecifiers" = some (CFType.data b) →
        irqInfo (some props) =
          some ("Spec:" ++ streamDec b.length ++ "B" ++
            (if cf2str ctrl = "" then "" else ", " ++ cf2str ctrl))) ∧
      (∀ items,
        CFDictionaryGetValue props "IOInterruptSpecifiers" = some (CFType.array items) →
        irqInfo (some props) =
          some ("Spec:" ++ streamDec items.length ++ " item(s)" ++
            (if cf2str ctrl = "" then "" else ", " ++ cf2str ctrl))) := by
  have hctrl : irqController props = some (cf2str ctrl) := by
    unfold irqController
    rw [hc]
    rfl
  constructor
  · intro b hb
    rw [irqInfo_of_present props _ hb, hctrl]
    by_cases he : cf2str ctrl = ""
    · simp only [Option.map_some', he, if_true, irqSpecText, String.append_empty]
    · simp only [Option.map_some', he, if_false, irqSpecText]
  · intro items hitems
    rw [irqInfo_of_present props _ hitems, hctrl]
    by_cases he : cf2str ctrl = ""
    · simp only [Option.map_some', he, if_true, irqSpecText, String.append_empty]
    · simp only [Option.map_some', he, if_false, irqSpecText]

/-- A 4-byte specifier with controller `"AppleAIC"` gives `"Spec:4B, AppleAIC"`; a
2-item list without controller gives `"Spec:2 item(s)"`. -/
theorem irqInfo_format_witness :
    irqInfo (some propsIrqData) = some "Spec:4B, AppleAIC" ∧
      irqInfo (some propsIrqList) = some "Spec:2 item(s)" :=
  ⟨((irqInfo_format propsIrqData (some "AppleAIC") (by decide)).1 [0x21, 0, 0, 0]
      rfl).trans (by decide),
    ((irqInfo_format propsIrqList none (by decide)).2
      [CFType.data [1, 0, 0, 0], CFType.data [2, 0, 0, 0]] rfl).trans (by decide)⟩

/-! ### Registry Walker -/

theorem collectRanges_of_cast (props : CFDictionary) (aa rg : Option (List Byte))
    (haa : castCFData (CFDictionaryGetValue props "assigned-addresses") = some aa)
    (hrg : castCFData (CFDictionaryGetValue props "reg") = some rg) :
    collectRanges props =
      some (if parseAssignedOrReg aa ≠ [] then parseAssignedOrReg aa
        else if parseAssignedOrReg rg ≠ [] then parseAssignedOrReg rg
        else parseIODeviceMemory (CFDictionaryGetValue props "IODeviceMemory")) := by
  unfold collectRanges
  rw [haa, hrg]
  simp only
  by_cases h1 : parseAssignedOrReg aa = []
  · by_cases h2 : parseAssignedOrReg rg = []
    · by_cases h3 : parseIODeviceMemory (CFDictionaryGetValue props "IODeviceMemory") = []
      · simp [h1, h2, h3]
      · simp [h1, h2, h3]
    · simp [h1, h2]
  · simp [h1]

theorem collectLoop_iff (noteTag : String) (entries : List RegistryEntry) :
    ∀ out result, collectLoop noteTag entries out = some result ↔
      ∃ rows, result = out ++ rows ∧
        List.Forall₂ (rowOf noteTag) (entries.filter retrieved) rows := by
  induction entries with
  | nil =>
    intro out result
    simp only [collectLoop, Option.some.injEq, List.filter_nil]
    constructor
    · intro h
      exact ⟨[], by simp [h], List.Forall₂.nil⟩
    · rintro ⟨rows, hres, hall⟩
      cases hall
      simp [hres]
  | cons o rest ih =>
    intro out result
    cases hp : o.props with
    | none =>
      have hf : (o :: rest).filter retrieved = rest.filter retrieved := by
        simp [List.filter_cons, retrieved, hp]
      rw [hf, ← ih out result]
      simp only [collectLoop, hp]
    | some props =>
      have hf : (o :: rest).filter retrieved = o :: rest.filter retrieved := by
        simp [List.filter_cons, retrieved, hp]
      rw [hf]
      cases hr : collectRow props (cf2str o.cls) noteTag with
      | none =>
        simp only [collectLoop, hp, hr]
        constructor
        · intro h
          cases h
        · rintro ⟨rows, _, hall⟩
          cases hall with
          | cons hhead _ =>
            obtain ⟨p2, hp2, hrow⟩ := hhead
            rw [hp] at hp2
            cases hp2
            rw [hr] at hrow
            cases hrow
      | some row =>
        simp only [collectLoop, hp, hr]
        rw [ih (out ++ [row]) result]
        constructor
        · rintro ⟨rows, hres, hall⟩
          refine ⟨row :: rows, by simp [hres], List.Forall₂.cons ⟨props, hp, hr⟩ hall⟩
        · rintro ⟨rows, hres, hall⟩
          cases hall with
          | cons hhead htail =>
            rename_i row2 rows2
            obtain ⟨p2, hp2, hrow⟩ := hhead
            rw [hp] at hp2
            cases hp2
            rw [hr] at hrow
            cases hrow
            exact ⟨rows2, by simp [hres], htail⟩

/-- The results of `collect`: a failed class query or an empty match returns the
accumulated records unchanged, and `collect` returns `result` exactly when `result` is
the accumulated records followed by one record per entry whose retrieval succeeded, in
iteration order, each being the record built for its entry. -/
theorem collect_appends_one_row_per_retrieved_entry
    (registry : String → Option (List RegistryEntry)) (klass noteTag : String)
    (out : List Row) :
    (registry klass = none → collect registry klass out noteTag = some out) ∧
      (registry klass = some [] → collect registry klass out noteTag = some out) ∧
      (∀ entries result, registry klass = some entries →
        (collect registry klass out noteTag = some result ↔
          ∃ rows, result = out ++ rows ∧
            List.Forall₂ (rowOf noteTag) (entries.filter retrieved) rows)) := by
  refine ⟨?_, ?_, ?_⟩
  · intro h
    simp only [collect, h]
  · intro h
    simp only [collect, h, collectLoop]
  · intro entries result h
    simp only [collect, h]
    exact collectLoop_iff noteTag entries out result

/-- In the example registry the class `"AppleSPU"` has three entries, the second of
which fails: `collect` keeps the earlier record and appends the records of the first
and third entries; a class whose query fails leaves the records unchanged. -/
theorem collect_appends_one_row_per_retrieved_entry_witness :
    collect registryExample "AppleSPU" [rowEarlier] "SoC-IO" =
        some ([rowEarlier] ++
          [{ device := "spu", ports := "N/A", ranges := [(0x3000, 0x3000)], irq := "N/A",
             note := "Системний IO" },
           { device := "pci-bridge", ports := "N/A", ranges := [], irq := "N/A",
             note := "Системний IO" }]) ∧
      collect registryExample "IOPCIDevice" [rowEarlier] "PCIe" = some [rowEarlier] :=
  ⟨((collect_appends_one_row_per_retrieved_entry registryExample "AppleSPU" "SoC-IO"
      [rowEarlier]).2.2 _ _ rfl).mpr
      ⟨_, rfl,
        List.Forall₂.cons ⟨propsMemoryOnly, rfl, by decide⟩
          (List.Forall₂.cons ⟨propsNoIrq, rfl, by decide⟩ List.Forall₂.nil)⟩,
    (collect_appends_one_row_per_retrieved_entry registryExample "IOPCIDevice" "PCIe"
      [rowEarlier]).1 rfl⟩

/-! ### Order of the candidate keys -/

theorem cf2str_of_no_nul (t : String) (h : ∀ c ∈ t.data, c ≠ Char.ofNat 0) :
    cf2str (some t) = t := by
  unfold cf2str
  have : t.data.takeWhile (fun c => c != Char.ofNat 0) = t.data := by
    rw [List.takeWhile_eq_self_iff]
    intro c hc
    simpa using h c hc
  simp only [this]

theorem findSome_usable (props : CFDictionary) (before after : List String)
    (k s : String) (hbefore : ∀ j ∈ before, usableName props j = none)
    (hk : usableName props k = some s) :
    (before ++ k :: after).findSome? (usableName props) = some s := by
  induction before with
  | nil => simp [List.findSome?_cons, hk]
  | cons j rest ih =>
    have hj := hbefore j (List.mem_cons_self j rest)
    rw [List.cons_append, List.findSome?_cons, hj]
    exact ih (fun i hi => hbefore i (List.mem_cons_of_mem j hi))

/-- C17, as stated, fails: `"IOName"` holds a non-empty string (NUL, `x`), yet the base
name is the value of the later key `"model"`. -/
theorem prettyName_skips_name_starting_with_nul :
    holdsNonEmptyString propsNulName "IOName" = true ∧
      prettyName propsNulName "AppleSPU" = "Widget" := by
  refine ⟨by decide, by decide⟩

/-- C17, amended: the base name of `prettyName` is the text (up to the first NUL) of
the earliest key, in the fixed order, whose value is a string with non-empty text;
earlier keys that are absent, hold a value that is not a string, or hold a string with
empty text do not block it, and the keys after it do not matter.  When the string has
no NUL its text is the string itself. -/
theorem prettyName_earliest_usable_key (props : CFDictionary) (ioClass : String)
    (before after : List String) (k t : String)
    (hkeys : prettyNameKeys = before ++ k :: after)
    (hbefore : ∀ j ∈ before, ∀ u, CFDictionaryGetValue props j = some (CFType.string u) →
      cf2str (some u) = "")
    (hk : CFDictionaryGetValue props k = some (CFType.string t))
    (ht : cf2str (some t) ≠ "") :
    prettyName props ioClass = withIdSuffix props ioClass (cf2str (some t)) ∧
      (ioClass ≠ "IOPCIDevice" → prettyName props ioClass = cf2str (some t)) ∧
      ((∀ c ∈ t.data, c ≠ Char.ofNat 0) → cf2str (some t) = t) := by
  have hb : ∀ j ∈ before, usableName props j = none := by
    intro j hj
    unfold usableName
    cases hv : CFDictionaryGetValue props j with
    | none => rfl
    | some v =>
      cases v with
      | string u => simp [hbefore j hj u hv]
      | _ => rfl
  have hu : usableName props k = some (cf2str (some t)) := by
    unfold usableName
    rw [hk]
    simp [ht]
  have hfind := findSome_usable props before after k _ hb hu
  have hname : prettyName props ioClass = withIdSuffix props ioClass (cf2str (some t)) := by
    unfold prettyName
    rw [prettyNameLoop_eq, hkeys, hfind]
  refine ⟨hname, ?_, cf2str_of_no_nul t⟩
  intro hc
  rw [hname]
  unfold withIdSuffix
  simp only [hc, if_false]

/-- With `"IOName"` a number and `"USB Product Name"` empty, the name is the value of
`"product-name"`, although `"model"` and `"name"` hold strings too and are stored
before it. -/
theorem prettyName_earliest_usable_key_witness :
    prettyName propsManyNames "AppleSPU" = "Hub" := by
  have h := (prettyName_earliest_usable_key propsManyNames "AppleSPU"
    ["IOName", "USB Product Name", "USB Product Name Override"] ["model", "name"]
    "product-name" "Hub" rfl
    (by
      intro j hj u hu
      simp only [List.mem_cons, List.mem_singleton, List.not_mem_nil, or_false] at hj
      rcases hj with rfl | rfl | rfl
      · cases hu
      · cases hu
        decide
      · cases hu)
    rfl (by decide)).2.1 (by decide)
  exact h.trans (by decide)

/-! ### Records on well-typed property sets, and the unchecked casts -/

theorem castCFData_of_absentOrData (v : Option CFType) (h : absentOrData v = true) :
    castCFData v = some (asBuffer v) := by
  cases v with
  | none => rfl
  | some x =>
    cases x with
    | data b => rfl
    | number n => simp [absentOrData] at h
    | string s => simp [absentOrData] at h
    | array a => simp [absentOrData] at h
    | dictionary d => simp [absentOrData] at h
    | other => simp [absentOrData] at h

theorem irqController_of_absentOrString (props : CFDictionary)
    (h : absentOrString (CFDictionaryGetValue props "IOInterruptController") = true) :
    irqController props = some (controllerText props) := by
  unfold irqController controllerText
  cases hv : CFDictionaryGetValue props "IOInterruptController" with
  | none => rfl
  | some x =>
    rw [hv] at h
    cases x with
    | string s => rfl
    | number n => simp [absentOrString] at h
    | data b => simp [absentOrString] at h
    | array a => simp [absentOrString] at h
    | dictionary d => simp [absentOrString] at h
    | other => simp [absentOrString] at h

/-- On a well-typed property set the stored interrupt summary is the specified one. -/
theorem collectIrq_of_wellTyped (props : CFDictionary)
    (h : (CFDictionaryGetValue props "IOInterruptSpecifiers").isNone = true ∨
      absentOrString (CFDictionaryGetValue props "IOInterruptController") = true) :
    collectIrq props = some (specIrq props) := by
  unfold collectIrq specIrq
  cases hv : CFDictionaryGetValue props "IOInterruptSpecifiers" with
  | none =>
    rw [irqInfo_of_absent props hv]
    rfl
  | some v =>
    have hc : absentOrString (CFDictionaryGetValue props "IOInterruptController") = true := by
      rcases h with h | h
      · rw [hv] at h
        simp at h
      · exact h
    rw [irqInfo_of_present props v hv, irqController_of_absentOrString props hc]
    simp only [Option.map_some']
    by_cases he : controllerText props = ""
    · have hne : irqSpecText v ≠ "" := by
        have := (irqSpecText_append_ne v "").1
        simpa using this
      simp only [he, if_true, hne, if_false]
    · have hne := (irqSpecText_append_ne v (", " ++ controllerText props)).1
      simp only [he, if_false, hne]

/-- On a well-typed property set `collect` builds the specified record. -/
theorem collectRow_of_wellTyped (props : CFDictionary) (ioClass noteTag : String)
    (h : wellTyped props = true) :
    collectRow props ioClass noteTag = some (specRow props ioClass noteTag) := by
  simp only [wellTyped, Bool.and_eq_true, Bool.or_eq_true] at h
  obtain ⟨⟨haa, hrg⟩, hirq⟩ := h
  have hr := collectRanges_of_cast props _ _ (castCFData_of_absentOrData _ haa)
    (castCFData_of_absentOrData _ hrg)
  have hi := collectIrq_of_wellTyped props hirq
  unfold collectRow
  rw [hr, hi]
  rfl

theorem collectLoop_of_wellTyped (noteTag : String) (entries : List RegistryEntry) :
    ∀ out, (∀ o ∈ entries, ∀ p, o.props = some p → wellTyped p = true) →
      collectLoop noteTag entries out =
        some (out ++ entries.filterMap
          (fun o => o.props.map (fun p => specRow p (cf2str o.cls) noteTag))) := by
  induction entries with
  | nil => intro out _; simp [collectLoop]
  | cons o rest ih =>
    intro out h
    have hrest : ∀ e ∈ rest, ∀ p, e.props = some p → wellTyped p = true :=
      fun e he => h e (List.mem_cons_of_mem o he)
    cases hp : o.props with
    | none =>
      simp only [collectLoop, hp, List.filterMap_cons, Option.map_none']
      exact ih out hrest
    | some p =>
      have hw := h o (List.mem_cons_self o rest) p hp
      simp only [collectLoop, hp, collectRow_of_wellTyped p _ _ hw, List.filterMap_cons,
        Option.map_some']
      rw [ih (out ++ [specRow p (cf2str o.cls) noteTag]) hrest]
      simp

/-- When every retrieved property set is well typed, `collect` returns the accumulated
records followed by the specified record of each entry whose retrieval succeeded, in
iteration order; failed entries are skipped and the scan goes on. -/
theorem collect_of_wellTyped (registry : String → Option (List RegistryEntry))
    (klass noteTag : String) (out : List Row) (entries : List RegistryEntry)
    (hq : registry klass = some entries)
    (h : ∀ o ∈ entries, ∀ p, o.props = some p → wellTyped p = true) :
    collect registry klass out noteTag =
        some (out ++ entries.filterMap
          (fun o => o.props.map (fun p => specRow p (cf2str o.cls) noteTag))) ∧
      (entries.filterMap
          (fun o => o.props.map (fun p => specRow p (cf2str o.cls) noteTag))).length =
        (entries.filter retrieved).length := by
  constructor
  · simp only [collect, hq]
    exact collectLoop_of_wellTyped noteTag entries out h
  · clear hq h
    induction entries with
    | nil => rfl
    | cons o rest ih =>
      cases hp : o.props with
      | none => simp [List.filterMap_cons, List.filter_cons, retrieved, hp, ih]
      | some p => simp [List.filterMap_cons, List.filter_cons, retrieved, hp, ih]

/-- The example registry, all of whose retrieved property sets are well typed. -/
theorem collect_of_wellTyped_example :
    collect registryExample "AppleSPU" [rowEarlier] "SoC-IO" =
      some [rowEarlier,
        { device := "spu", ports := "N/A", ranges := [(0x3000, 0x3000)], irq := "N/A",
          note := "Системний IO" },
        { device := "pci-bridge", ports := "N/A", ranges := [], irq := "N/A",
          note := "Системний IO" }] :=
  (collect_of_wellTyped registryExample "AppleSPU" "SoC-IO" [rowEarlier] _ rfl
    (by decide)).1.trans (by decide)

/-- When `"IOInterruptSpecifiers"` is present but is neither a raw buffer nor a list, and
`"IOInterruptController"` is absent or a string, `irqInfo` returns `"Spec:0 item(s)"`,
followed by `", " ++ c` exactly when the controller text `c` is not empty, and that is
the stored interrupt summary. -/
theorem irqInfo_other_specifier_of_typed_controller (props : CFDictionary) (v : CFType)
    (hv : CFDictionaryGetValue props "IOInterruptSpecifiers" = some v)
    (hnd : ∀ d, v ≠ CFType.data d) (hna : ∀ a, v ≠ CFType.array a)
    (hc : absentOrString (CFDictionaryGetValue props "IOInterruptController") = true) :
    irqInfo (some props) =
        some (if controllerText props = "" then "Spec:0 item(s)"
          else "Spec:0 item(s)" ++ (", " ++ controllerText props)) ∧
      collectIrq props =
        some (if controllerText props = "" then "Spec:0 item(s)"
          else "Spec:0 item(s)" ++ (", " ++ controllerText props)) := by
  have htext : irqSpecText v = "Spec:0 item(s)" := by
    cases v with
    | data d => exact absurd rfl (hnd d)
    | array a => exact absurd rfl (hna a)
    | _ => rfl
  have h1 := irqInfo_of_present props v hv
  rw [htext, irqController_of_absentOrString props hc] at h1
  have h2 := collectIrq_of_wellTyped props (Or.inr hc)
  unfold specIrq at h2
  rw [hv] at h2
  simp only [htext] at h2
  exact ⟨h1, h2⟩

/-- C20: the claim holds when `"IOInterruptController"` is a string (a numeric specifier
with controller `"AppleAIC"` gives `"Spec:0 item(s), AppleAIC"`), but with a numeric
specifier and a numeric controller `irqInfo` hands the number to `cf2str` through an
unchecked cast and has no defined result: it does not return `"Spec:0 item(s)"`, and no
record is built. -/
theorem irqInfo_numeric_controller_undefined :
    irqInfo (some propsIrqNumberCtrl) = some "Spec:0 item(s), AppleAIC" ∧
      (CFDictionaryGetValue propsIrqBothNumbers "IOInterruptSpecifiers").isSome = true ∧
      irqInfo (some propsIrqBothNumbers) = none ∧
      irqInfo (some propsIrqBothNumbers) ≠ some "Spec:0 item(s)" ∧
      collectRow propsIrqBothNumbers "AppleSPU" "SoC-IO" = none := by
  refine ⟨by decide, by decide, by decide, by decide, by decide⟩

/-- C14: in a registry whose class `"AppleSPU"` matches two entries, both with a
succeeding property retrieval, the second with a `"reg"` property that is a string,
`collect` hands the string to `parseAssignedOrReg` through an unchecked cast and has no
defined result: it does not return the accumulated record followed by two records. -/
theorem collect_string_reg_undefined :
    registryRegString "AppleSPU" = some entriesRegString ∧
      (∀ o ∈ entriesRegString, retrieved o = true) ∧
      collect registryRegString "AppleSPU" [rowEarlier] "SoC-IO" = none ∧
      ¬ (∃ rows, rows.length = 2 ∧
        collect registryRegString "AppleSPU" [rowEarlier] "SoC-IO" =
          some ([rowEarlier] ++ rows)) := by
  have hnone : collect registryRegString "AppleSPU" [rowEarlier] "SoC-IO" = none := by
    decide
  refine ⟨rfl, by decide, hnone, ?_⟩
  rintro ⟨rows, _, h⟩
  rw [hnone] at h
  cases h
end MacInventory
